import Mathlib

/-!
# Trigger-to-action dispatch (trigger/handler.go) and expression tree (ast/expr.go)

A shallow embedding of the handler of trigger/handler.go, in the namespace
trigger, and of the expression nodes of data/expression/script/gocc/ast/expr.go,
in the namespace ast.

* Go values of type interface are the inductive type Value; a Go map
  map[string]interface is an association list wrapped in Option, where none
  is the nil map.
* A Go result pair (value, error) is a Lean pair whose second component is an
  Option GoError, none being the nil error.
* The collaborators the handler calls through interfaces (guard expressions,
  mappers, the runner) are records of functions.  Every call Handle makes to a
  collaborator is recorded, in program order, in the trace of the result, so
  that "is not evaluated" and "is not invoked" are statements about the trace.
* Go maps are reference types.  The map triggerValues refers to is threaded
  through Handle explicitly: the result records its contents after the writes
  Handle itself makes, those of the coercion step.  The collaborators are
  functions: a write that a collaborator may make to a map it is handed is not
  modelled.
* Ranging over a Go map visits its entries in an unspecified order.  The
  declared input fields of an action are a list; its order is the order in
  which one execution of the range statement visits them, and theorems hold
  for every such list whose names are pairwise distinct.
-/

namespace trigger

/-! ## Values, errors and maps -/

/-- Modelled from the spec: a Go interface value as the handler observes it,
the nil interface, a boolean, an integer or a string. -/
inductive Value
  | nil
  | bool (b : Bool)
  | int (n : Int)
  | str (s : String)
  deriving DecidableEq, Repr

/-- A Go error value, identified by its message. -/
structure GoError where
  msg : String
  deriving DecidableEq, Repr

/-- The constructor errors.New of the Go standard library. -/
def errorsNew (msg : String) : GoError := ⟨msg⟩

/-- The entries of a non-nil Go map with string keys. -/
abbrev Entries := List (String × Value)

/-- A Go map with string keys; none is the nil map. -/
abbrev GoMap := Option Entries

/-- The lookup on the entries of a map. -/
def Entries.get : Entries → String → Option Value
  | [], _ => none
  | (k, v) :: rest, name => if k = name then some v else Entries.get rest name

/-- The assignment m[name] = v on the entries of a map. -/
def Entries.set : Entries → String → Value → Entries
  | [], name, v => [(name, v)]
  | (k, w) :: rest, name, v =>
    if k = name then (k, v) :: rest else (k, w) :: Entries.set rest name v

/-- The two-valued lookup val, ok := m[name]; a nil map has no entries. -/
def GoMap.get (m : GoMap) (name : String) : Option Value :=
  match m with
  | none => none
  | some es => es.get name

/-- The assignment m[name] = v.  Handle assigns only under a successful lookup
of the same key, which a nil map never gives. -/
def GoMap.set (m : GoMap) (name : String) (v : Value) : GoMap :=
  match m with
  | none => none
  | some es => some (es.set name v)

/-- The rendering of a value by the verb %v of the Go package fmt. -/
def fmtV : Value → String
  | .nil => "<nil>"
  | .bool true => "true"
  | .bool false => "false"
  | .int n => toString n
  | .str s => s

/-! ## Collaborator interfaces -/

/-- Modelled from the spec: the declared type of an input field (data.Type). -/
inductive DataType
  | any
  | string
  | int
  | bool
  deriving DecidableEq, Repr

/-- Modelled from the spec: the input shape metadata of an action, the declared
fields with their types, in the order one range statement visits them. -/
structure IOMetadata where
  Input : List (String × DataType)
  deriving DecidableEq, Repr

/-- Modelled from the spec: an action handle; ioMetadata is what its method
IOMetadata returns, none for nil. -/
structure Action where
  id : Nat
  ioMetadata : Option IOMetadata
  deriving DecidableEq, Repr

/-- Modelled from the spec: the scope built by data.NewSimpleScope with a nil
parent. -/
structure Scope where
  values : GoMap
  deriving DecidableEq, Repr

/-- The call data.NewSimpleScope(values, nil). -/
def NewSimpleScope (values : GoMap) : Scope := ⟨values⟩

/-- Modelled from the spec: the interface expression.Expr as the handler uses
it. -/
structure Expr where
  Eval : Scope → Value × Option GoError

/-- Modelled from the spec: the interface mapper.Mapper. -/
structure Mapper where
  Apply : Scope → GoMap × Option GoError

/-- Modelled from the spec: the per-action declarations of a handler
configuration. -/
structure ActionConfig where
  If : String
  Input : GoMap
  Output : GoMap
  deriving DecidableEq, Repr

/-- Modelled from the spec: the parent (trigger) configuration. -/
structure Config where
  Settings : GoMap
  deriving DecidableEq, Repr

/-- Modelled from the spec: the handler configuration; parent is none for a nil
pointer. -/
structure HandlerConfig where
  parent : Option Config
  Name : String
  Settings : GoMap
  Actions : List ActionConfig
  deriving DecidableEq, Repr

/-- Modelled from the spec: a context value; handler is the context derived by
NewHandlerContext, carrying the handler configuration. -/
inductive Context
  | base (id : Nat)
  | handler (parent : Context) (config : Option HandlerConfig)
  deriving DecidableEq, Repr

/-- The call NewHandlerContext(ctx, config). -/
def NewHandlerContext (ctx : Context) (config : Option HandlerConfig) : Context :=
  .handler ctx config

/-- Modelled from the spec: the interface action.Runner. -/
structure Runner where
  RunAction : Context → Action → GoMap → GoMap × Option GoError

/-- Modelled from the spec: the signature of coerce.ToType, a Go result pair. -/
abbrev ToType := Value → DataType → Value × Option GoError

/-! ## The handler -/

/-- The struct actImpl; a nil interface field is none. -/
structure actImpl where
  act : Option Action
  condition : Option Expr
  actionInputMapper : Option Mapper
  actionOutputMapper : Option Mapper

/-- The zero value of actImpl, the value of var act before the scan. -/
def actImpl.zero : actImpl := ⟨none, none, none, none⟩

/-- The struct handlerImpl. -/
structure handlerImpl where
  runner : Runner
  config : Option HandlerConfig
  acts : List actImpl

/-- The payload triggerData: a plain value (nil included), a native map with
string keys, or a data.StructValue given by the result of its ToMap. -/
inductive TriggerData
  | val (v : Value)
  | mapValue (values : GoMap)
  | structValue (toMap : GoMap)
  deriving DecidableEq, Repr

/-- The calls Handle makes to its collaborators. -/
inductive Event
  | evalGuard (i : Nat)
  | applyInputMapper
  | coerce (name : String)
  | runAction (act : Action) (input : GoMap)
  | applyOutputMapper
  deriving DecidableEq, Repr

/-- The outcome of one call of Handle: the returned pair, the collaborator calls
made in order, and the contents of the map triggerValues refers to after the
writes Handle itself makes to it, those of the coercion step: its contents when
the Runner is called, or when Handle returns without calling it. -/
structure HandleResult where
  results : GoMap
  err : Option GoError
  trace : List Event
  triggerValues : GoMap
  deriving DecidableEq, Repr

/-- Lines 98-108 of handler.go: the normalisation of the payload. -/
def normalize : TriggerData → Except GoError GoMap
  | .val .nil => .ok none
  | .mapValue values => .ok values
  | .structValue toMap => .ok toMap
  | .val v => .error ⟨"unsupported trigger data: " ++ fmtV v⟩

/-- Lines 112-132 of handler.go: the scan of the bindings from index i on.  The
result is the error returned from inside the loop, or the value of act when the
loop is left, with the guard evaluations made. -/
def scanActs (scope : Scope) : Nat → List actImpl → Except GoError actImpl × List Event
  | _, [] => (.ok actImpl.zero, [])
  | i, v :: rest =>
    match v.condition with
    | none => (.ok v, [])
    | some c =>
      match c.Eval scope with
      | (_, some err) => (.error err, [.evalGuard i])
      | (.nil, none) => (.error (errorsNew "expression has nil result"), [.evalGuard i])
      | (.bool true, none) => (.ok v, [.evalGuard i])
      | (.bool false, none) =>
        ((scanActs scope (i + 1) rest).1, .evalGuard i :: (scanActs scope (i + 1) rest).2)
      | (_, none) => (.error (errorsNew "expression has a non-bool result"), [.evalGuard i])

/-- Lines 152-159 of handler.go: the coercion loop over the declared fields.
The map is updated in place; the result is the map after the loop, the error
returned from inside the loop if any, and the coercions made. -/
def coerceInputs (toType : ToType) :
    List (String × DataType) → GoMap → GoMap × Option GoError × List Event
  | [], inputMap => (inputMap, none, [])
  | (name, tv) :: rest, inputMap =>
    match inputMap.get name with
    | some val =>
      match (toType val tv).2 with
      | some err => (inputMap.set name (toType val tv).1, some err, [.coerce name])
      | none =>
        let r := coerceInputs toType rest (inputMap.set name (toType val tv).1)
        (r.1, r.2.1, .coerce name :: r.2.2)
    | none => coerceInputs toType rest inputMap

/-- Lines 151-160 of handler.go: the coercion pass, skipped for nil metadata. -/
def coercePass (toType : ToType) (a : Action) (inputMap : GoMap) :
    GoMap × Option GoError × List Event :=
  match a.ioMetadata with
  | none => (inputMap, none, [])
  | some ioMd => coerceInputs toType ioMd.Input inputMap

/-- Lines 138-149 of handler.go: the input mapping of the selected binding. -/
def buildInput (act : actImpl) (triggerValues : GoMap) :
    GoMap × Option GoError × List Event :=
  match act.actionInputMapper with
  | some m =>
    ((m.Apply (NewSimpleScope triggerValues)).1, (m.Apply (NewSimpleScope triggerValues)).2,
      [.applyInputMapper])
  | none => (triggerValues, none, [])

/-- Lines 162-176 of handler.go: the runner call and the shaping of its result. -/
def runAndShape (h : handlerImpl) (ctx : Context) (act : actImpl) (a : Action)
    (inputMap : GoMap) : GoMap × Option GoError × List Event :=
  match h.runner.RunAction (NewHandlerContext ctx h.config) a inputMap with
  | (_, some err) => (none, some err, [.runAction a inputMap])
  | (results, none) =>
    match act.actionOutputMapper with
    | some m =>
      ((m.Apply (NewSimpleScope results)).1, (m.Apply (NewSimpleScope results)).2,
        [.runAction a inputMap, .applyOutputMapper])
    | none => (results, none, [.runAction a inputMap])

/-- The method Handle of handlerImpl (lines 94-176 of handler.go).  When the
selected binding has no input mapper, inputMap and triggerValues are the same
map, so the writes of the coercion loop are writes to triggerValues; a map
returned by an input mapper is a map of its own. -/
def Handle (toType : ToType) (h : handlerImpl) (ctx : Context) (triggerData : TriggerData) :
    HandleResult :=
  match normalize triggerData with
  | .error err => ⟨none, some err, [], none⟩
  | .ok triggerValues =>
    match scanActs (NewSimpleScope triggerValues) 0 h.acts with
    | (.error err, tr) => ⟨none, some err, tr, triggerValues⟩
    | (.ok act, tr) =>
      match act.act with
      | none => ⟨none, some (errorsNew "no action to execute"), tr, triggerValues⟩
      | some a =>
        match buildInput act triggerValues with
        | (_, some err, trIn) => ⟨none, some err, tr ++ trIn, triggerValues⟩
        | (inputMap, none, trIn) =>
          match coercePass toType a inputMap with
          | (coerced, some err, trCo) =>
            ⟨none, some err, tr ++ trIn ++ trCo,
              if act.actionInputMapper.isNone then coerced else triggerValues⟩
          | (coerced, none, trCo) =>
            match runAndShape h ctx act a coerced with
            | (results, err, trRun) =>
              ⟨results, err, tr ++ trIn ++ trCo ++ trRun,
                if act.actionInputMapper.isNone then coerced else triggerValues⟩

/-! ## A concrete coercion and concrete collaborators, for evaluation -/

/-- The decimal value of a list of digits. -/
def digitsValue (cs : List Char) : Nat :=
  cs.foldl (fun n c => n * 10 + (c.toNat - 48)) 0

/-- Modelled from the spec: one coercion in the shape of coerce.ToType, whose
conversion rules the sources leave out.  Integers and decimal strings coerce to
int, everything coerces to any, strings to string, booleans and the strings true
and false to bool; a failure returns the zero value of the type and an error
built from the value and the type alone, the only arguments a coercion
receives.  The theorems on Handle take the coercion as a parameter; this one
serves to evaluate Handle on concrete inputs. -/
def sampleToType : ToType
  | v, .any => (v, none)
  | .int n, .int => (.int n, none)
  | .str s, .int =>
    if s.data ≠ [] ∧ s.data.all Char.isDigit then (.int (digitsValue s.data), none)
    else (.int 0, some ⟨"unable to coerce " ++ s ++ " to int"⟩)
  | v, .int => (.int 0, some ⟨"unable to coerce " ++ fmtV v ++ " to int"⟩)
  | .str s, .string => (.str s, none)
  | .int n, .string => (.str (toString n), none)
  | v, .string => (.str "", some ⟨"unable to coerce " ++ fmtV v ++ " to string"⟩)
  | .bool b, .bool => (.bool b, none)
  | .str "true", .bool => (.bool true, none)
  | .str "false", .bool => (.bool false, none)
  | v, .bool => (.bool false, some ⟨"unable to coerce " ++ fmtV v ++ " to bool"⟩)

/-- The outcome of evaluating the guard of a binding on a scope; none for a
binding with no guard. -/
def guardResult (scope : Scope) (v : actImpl) : Option (Value × Option GoError) :=
  match v.condition with
  | none => none
  | some c => some (c.Eval scope)

/-- The input mapping of a binding after the coercion pass, as Handle computes
it from the normalised trigger values. -/
def coercedInput (toType : ToType) (act : actImpl) (a : Action) (triggerValues : GoMap) : GoMap :=
  (coercePass toType a (buildInput act triggerValues).1).1

/-- A runner that returns its input mapping. -/
def echoRunner : Runner := ⟨fun _ _ input => (input, none)⟩

/-- A runner that fails with the given error. -/
def failRunner (e : GoError) : Runner := ⟨fun _ _ _ => (none, some e)⟩

/-- An expression that evaluates to the given value on every scope. -/
def constExpr (v : Value) : Expr := ⟨fun _ => (v, none)⟩

/-- An expression whose evaluation fails with the given error. -/
def errExpr (e : GoError) : Expr := ⟨fun _ => (.nil, some e)⟩

/-- A mapper that returns the given pair on every scope. -/
def constMapper (m : GoMap) (e : Option GoError) : Mapper := ⟨fun _ => (m, e)⟩

/-- An action declaring the input field count of type int. -/
def countAction : Action := ⟨1, some ⟨[("count", .int)]⟩⟩

/-- An action with nil metadata. -/
def plainAction (id : Nat) : Action := ⟨id, none⟩

/-- A binding with the given action and guard and no mappers. -/
def binding (a : Action) (condition : Option Expr) : actImpl := ⟨some a, condition, none, none⟩

/-- A binding whose guard evaluates to false. -/
def falseBinding : actImpl := binding (plainAction 0) (some (constExpr (.bool false)))

/-- A binding whose guard evaluates to true. -/
def trueBinding : actImpl := binding (plainAction 1) (some (constExpr (.bool true)))

/-- A binding with no guard. -/
def defaultBinding : actImpl := binding (plainAction 2) none

/-- A binding whose guard evaluates to true and whose input mapper fails. -/
def trueBindingBadMapper : actImpl :=
  ⟨some (plainAction 1), some (constExpr (.bool true)),
    some (constMapper none (some ⟨"mapping failed"⟩)), none⟩

/-- A binding whose guard evaluates to the string true. -/
def stringBinding : actImpl := binding (plainAction 1) (some (constExpr (.str "true")))

/-- A binding whose guard fails to evaluate. -/
def errorBinding : actImpl := binding (plainAction 1) (some (errExpr ⟨"unresolved reference"⟩))

/-- A handler over the echo runner with the given bindings. -/
def echoHandler (acts : List actImpl) : handlerImpl := ⟨echoRunner, none, acts⟩

/-- Every coercion of a declared field that is present succeeds. -/
def allCoercionsSucceed (toType : ToType) (fields : List (String × DataType)) (m : GoMap) : Prop :=
  ∀ name t val, (name, t) ∈ fields → m.get name = some val → (toType val t).2 = none

/-- An action declaring the input fields a and b, both of type int. -/
def twoFieldAction : Action := ⟨3, some ⟨[("a", .int), ("b", .int)]⟩⟩

/-- A binding with an output mapper that returns a map together with an error. -/
def bothOutputBinding : actImpl :=
  ⟨some (plainAction 4), none, none,
    some (constMapper (some [("partial", .int 1)]) (some ⟨"output mapping failed"⟩))⟩

/-- A binding with an output mapper that returns a nil map together with an error. -/
def nilOutputBinding : actImpl :=
  ⟨some (plainAction 5), none, none, some (constMapper none (some ⟨"output mapping failed"⟩))⟩

/-! ## Settings lookup and handler construction -/

/-- The method GetSetting of handlerImpl (lines 79-92 of handler.go).  The result
is none when the call panics: h.config.parent is dereferenced at line 88, and a
nil parent has no Settings. -/
def GetSetting (h : handlerImpl) (setting : String) : Option (Value × Bool) :=
  match h.config with
  | none => some (.nil, false)
  | some config =>
    match config.Settings.get setting with
    | some val => some (val, true)
    | none =>
      match config.parent with
      | none => none
      | some parent =>
        some ((parent.Settings.get setting).getD .nil, (parent.Settings.get setting).isSome)

/-- The builtin len on a map; a nil map has length 0. -/
def GoMap.len (m : GoMap) : Nat :=
  match m with
  | none => 0
  | some es => es.length

/-- Modelled from the spec: the interface expression.Factory, the collaborator
that compiles a guard string; a Go result pair. -/
structure ExprFactory where
  NewExpr : String → Option Expr × Option GoError

/-- Modelled from the spec: the interface mapper.Factory, the collaborator that
compiles a mapping declaration; a Go result pair. -/
structure MapperFactory where
  NewMapper : GoMap → Option Mapper × Option GoError

/-- The calls NewHandler makes to the factories, with the index of the action
they are made for. -/
inductive BuildEvent
  | newExpr (i : Nat) (exprStr : String)
  | newMapper (i : Nat) (mappings : GoMap)
  deriving DecidableEq, Repr

/-- Lines 53-59 of handler.go: the guard of action i. -/
def compileCondition (ef : ExprFactory) (i : Nat) (ac : ActionConfig) :
    Option Expr × Option GoError × List BuildEvent :=
  if ac.If ≠ "" then
    match (ef.NewExpr ac.If).2 with
    | some err => (none, some err, [.newExpr i ac.If])
    | none => ((ef.NewExpr ac.If).1, none, [.newExpr i ac.If])
  else (none, none, [])

/-- Lines 61-66 and 68-73 of handler.go: the mapper of a declaration of
action i. -/
def compileMapper (mf : MapperFactory) (i : Nat) (mappings : GoMap) :
    Option Mapper × Option GoError × List BuildEvent :=
  if mappings.len ≠ 0 then
    ((mf.NewMapper mappings).1, (mf.NewMapper mappings).2, [.newMapper i mappings])
  else (none, none, [])

/-- Lines 51-73 of handler.go: the body of the loop for action i, the error
returned from inside it or the binding built, with the factory calls made. -/
def buildAct (mf : MapperFactory) (ef : ExprFactory) (i : Nat) (act : Option Action)
    (ac : ActionConfig) : Except GoError actImpl × List BuildEvent :=
  match compileCondition ef i ac with
  | (_, some err, tr1) => (.error err, tr1)
  | (condition, none, tr1) =>
    match compileMapper mf i ac.Input with
    | (_, some err, tr2) => (.error err, tr1 ++ tr2)
    | (inputMapper, none, tr2) =>
      match compileMapper mf i ac.Output with
      | (_, some err, tr3) => (.error err, tr1 ++ tr2 ++ tr3)
      | (outputMapper, none, tr3) =>
        (.ok ⟨act, condition, inputMapper, outputMapper⟩, tr1 ++ tr2 ++ tr3)

/-- Lines 50-74 of handler.go: the loop over the action handles from index i on.
The result is none when config.Actions[i] is out of range (a panic); otherwise
it is the error returned from inside the loop, or the bindings built, with the
factory calls made. -/
def buildActs (config : HandlerConfig) (mf : MapperFactory) (ef : ExprFactory) :
    Nat → List (Option Action) → Option (Except GoError (List actImpl) × List BuildEvent)
  | _, [] => some (.ok [], [])
  | i, act :: rest =>
    match config.Actions[i]? with
    | none => none
    | some ac =>
      match buildAct mf ef i act ac with
      | (.error err, tr) => some (.error err, tr)
      | (.ok b, tr) =>
        match buildActs config mf ef (i + 1) rest with
        | none => none
        | some (.error err, tr2) => some (.error err, tr ++ tr2)
        | some (.ok bindings, tr2) => some (.ok (b :: bindings), tr ++ tr2)

/-- The outcome of NewHandler: the returned pair and the factory calls made. -/
structure NewHandlerResult where
  handler : Option handlerImpl
  err : Option GoError
  trace : List BuildEvent

/-- The function NewHandler (lines 43-77 of handler.go); none is a panic. -/
def NewHandler (config : HandlerConfig) (acts : List (Option Action)) (mf : MapperFactory)
    (ef : ExprFactory) (runner : Runner) : Option NewHandlerResult :=
  match buildActs config mf ef 0 acts with
  | none => none
  | some (.error err, tr) => some ⟨none, some err, tr⟩
  | some (.ok bindings, tr) => some ⟨some ⟨runner, some config, bindings⟩, none, tr⟩

/-- The index of the action a factory call is made for. -/
def BuildEvent.index : BuildEvent → Nat
  | .newExpr i _ => i
  | .newMapper i _ => i

/-- The error of the first compilation that fails for an action configuration,
in the order guard, input mapper, output mapper; none when none fails. -/
def compileError (mf : MapperFactory) (ef : ExprFactory) (ac : ActionConfig) : Option GoError :=
  if ac.If ≠ "" ∧ (ef.NewExpr ac.If).2.isSome then (ef.NewExpr ac.If).2
  else if ac.Input.len ≠ 0 ∧ (mf.NewMapper ac.Input).2.isSome then (mf.NewMapper ac.Input).2
  else if ac.Output.len ≠ 0 then (mf.NewMapper ac.Output).2
  else none

/-- The binding the spec describes for an action handle and its configuration:
the compiled guard when the guard string is present, the compiled mappers when
the mapping declarations are not empty, and nil otherwise. -/
def expectedBinding (mf : MapperFactory) (ef : ExprFactory) (act : Option Action)
    (ac : ActionConfig) : actImpl :=
  ⟨act, if ac.If ≠ "" then (ef.NewExpr ac.If).1 else none,
    if ac.Input.len ≠ 0 then (mf.NewMapper ac.Input).1 else none,
    if ac.Output.len ≠ 0 then (mf.NewMapper ac.Output).1 else none⟩

/-- An expression factory that compiles every string but the given one. -/
def sampleExprFactory (bad : String) : ExprFactory :=
  ⟨fun s => if s = bad then (none, some ⟨"unable to compile " ++ s⟩)
    else (some (constExpr (.bool true)), none)⟩

/-- A mapper factory that compiles every declaration to a mapper returning it. -/
def sampleMapperFactory : MapperFactory :=
  ⟨fun m => (some (constMapper m none), none)⟩

/-- An expression factory that returns a nil expression with a nil error. -/
def nilExprFactory : ExprFactory := ⟨fun _ => (none, none)⟩

/-- A handler configuration with one action that has a guard string and no
mapping declaration. -/
def oneGuardConfig : HandlerConfig :=
  ⟨none, "one", none, [⟨"$.a == 1", none, none⟩]⟩

/-- A handler configuration with three actions: a guard with an input mapping,
a guard alone, and neither. -/
def threeActionConfig : HandlerConfig :=
  ⟨none, "three", none,
    [⟨"$.a == 1", some [("x", .str "=$.a")], none⟩, ⟨"$.b == 2", none, none⟩, ⟨"", none, none⟩]⟩

/-- A handler configuration with a parent, for evaluation: the handler sets
port, the parent sets port and host. -/
def sampleConfig : HandlerConfig :=
  ⟨some ⟨some [("port", .int 80), ("host", .str "localhost")]⟩, "sample",
    some [("port", .int 8080)], []⟩

end trigger

namespace ast

open trigger

/-! ## The expression tree (data/expression/script/gocc/ast/expr.go)

Init has a pointer receiver and assigns to the node, so its embedding returns
the node after the call; Eval assigns to no field and returns its result only.
A call that panics (a method call on a nil Resolution) has the result none.
Every call a node makes to a collaborator is recorded in the trace. -/

/-- Modelled from the spec: the interface resolve.Resolution, the bound accessor
that fetches a value from a scope. -/
structure Resolution where
  GetValue : Scope → Value × Option GoError

/-- Modelled from the spec: the interface resolve.CompositeResolver; its method
returns a Go result pair, the Resolution being none for nil. -/
structure CompositeResolver where
  GetResolution : String → Option Resolution × Option GoError

/-- Modelled from the spec: the signature of coerce.ToBool, a Go result pair. -/
abbrev ToBool := Value → Bool × Option GoError

/-- An implementation of the interface Expr other than the two of expr.go
(a literal, a binary operator), given by what its methods return; id names the
node in traces and typeName is the rendering of its type by the verb %T. -/
structure OtherExpr where
  id : Nat
  typeName : String
  Init : CompositeResolver → Bool → Option GoError
  Eval : Scope → Value × Option GoError

/-- The nodes of the interface Expr: the structs exprRef and exprTernary of
expr.go with their fields, and any other implementation. -/
inductive Expr
  | exprRef (ref : String) (res : Option Resolution)
  | exprTernary (ifExpr thenExpr elseExpr : Expr)
  | other (impl : OtherExpr)

/-- The calls the nodes make to their collaborators. -/
inductive Call
  | getResolution (ref : String) (root : Bool)
  | getValue (ref : String)
  | initOther (id : Nat) (root : Bool)
  | evalOther (id : Nat)
  deriving DecidableEq, Repr

/-- The outcome of Init: the node after the call, the returned error and the
calls made. -/
structure InitResult where
  node : Expr
  err : Option GoError
  trace : List Call

/-- The outcome of Eval: the returned pair, none when the call panics, and the
calls made. -/
structure EvalResult where
  ret : Option (Value × Option GoError)
  trace : List Call

/-- The methods Init of exprRef (lines 112-121) and of exprTernary (lines 58-69).
The call on a reference node is recorded with the reference string submitted to
the resolver and the root flag the call received. -/
def Init (resolver : CompositeResolver) : Bool → Expr → InitResult
  | root, .exprRef ref res =>
    match resolver.GetResolution ref with
    | (_, some err) => ⟨.exprRef ref res, some err, [.getResolution ref root]⟩
    | (r, none) => ⟨.exprRef ref r, none, [.getResolution ref root]⟩
  | root, .other impl => ⟨.other impl, impl.Init resolver root, [.initOther impl.id root]⟩
  | _, .exprTernary ifExpr thenExpr elseExpr =>
    match (Init resolver false ifExpr).err with
    | some err =>
      ⟨.exprTernary (Init resolver false ifExpr).node thenExpr elseExpr, some err,
        (Init resolver false ifExpr).trace⟩
    | none =>
      match (Init resolver false thenExpr).err with
      | some err =>
        ⟨.exprTernary (Init resolver false ifExpr).node (Init resolver false thenExpr).node
            elseExpr, some err,
          (Init resolver false ifExpr).trace ++ (Init resolver false thenExpr).trace⟩
      | none =>
        ⟨.exprTernary (Init resolver false ifExpr).node (Init resolver false thenExpr).node
            (Init resolver false elseExpr).node, (Init resolver false elseExpr).err,
          (Init resolver false ifExpr).trace ++ (Init resolver false thenExpr).trace
            ++ (Init resolver false elseExpr).trace⟩

/-- The methods Eval of exprRef (lines 123-125) and of exprTernary
(lines 71-96). -/
def Eval (toBool : ToBool) (scope : Scope) : Expr → EvalResult
  | .exprRef ref res =>
    match res with
    | none => ⟨none, []⟩
    | some r => ⟨some (r.GetValue scope), [.getValue ref]⟩
  | .other impl => ⟨some (impl.Eval scope), [.evalOther impl.id]⟩
  | .exprTernary ifExpr thenExpr elseExpr =>
    match (Eval toBool scope ifExpr).ret with
    | none => ⟨none, (Eval toBool scope ifExpr).trace⟩
    | some (_, some err) => ⟨some (.nil, some err), (Eval toBool scope ifExpr).trace⟩
    | some (iv, none) =>
      match toBool iv with
      | (_, some err) => ⟨some (.nil, some err), (Eval toBool scope ifExpr).trace⟩
      | (true, none) =>
        match (Eval toBool scope thenExpr).ret with
        | none =>
          ⟨none, (Eval toBool scope ifExpr).trace ++ (Eval toBool scope thenExpr).trace⟩
        | some (_, some err) =>
          ⟨some (.nil, some err),
            (Eval toBool scope ifExpr).trace ++ (Eval toBool scope thenExpr).trace⟩
        | some (tv, none) =>
          ⟨some (tv, none),
            (Eval toBool scope ifExpr).trace ++ (Eval toBool scope thenExpr).trace⟩
      | (false, none) =>
        match (Eval toBool scope elseExpr).ret with
        | none =>
          ⟨none, (Eval toBool scope ifExpr).trace ++ (Eval toBool scope elseExpr).trace⟩
        | some (_, some err) =>
          ⟨some (.nil, some err),
            (Eval toBool scope ifExpr).trace ++ (Eval toBool scope elseExpr).trace⟩
        | some (ev, none) =>
          ⟨some (ev, none),
            (Eval toBool scope ifExpr).trace ++ (Eval toBool scope elseExpr).trace⟩

/-- The predicate unicode.IsSpace of the Go standard library, by code point. -/
def isSpace (c : Char) : Bool :=
  (9 ≤ c.toNat ∧ c.toNat ≤ 13) ∨ c.toNat = 32 ∨ c.toNat = 0x85 ∨ c.toNat = 0xA0
    ∨ c.toNat = 0x1680 ∨ (0x2000 ≤ c.toNat ∧ c.toNat ≤ 0x200A) ∨ c.toNat = 0x2028
    ∨ c.toNat = 0x2029 ∨ c.toNat = 0x202F ∨ c.toNat = 0x205F ∨ c.toNat = 0x3000

/-- The function strings.TrimSpace of the Go standard library. -/
def TrimSpace (s : String) : String :=
  ⟨((s.data.dropWhile isSpace).reverse.dropWhile isSpace).reverse⟩

/-- A value of type interface handed to the builders by the parser: an
expression, a sequence of expressions, or any other value, given by the
rendering of its type by the verb %T. -/
inductive Attrib
  | expr (x : Expr)
  | exprList (list : List Expr)
  | other (typeName : String)

/-- The rendering of the type of a value by the verb %T. -/
def Attrib.typeName : Attrib → String
  | .expr (.exprRef _ _) => "*ast.exprRef"
  | .expr (.exprTernary _ _ _) => "*ast.exprTernary"
  | .expr (.other impl) => impl.typeName
  | .exprList _ => "[]ast.Expr"
  | .other typeName => typeName

/-- The function NewExprList (lines 27-32); a nil slice is none. -/
def NewExprList (x : Attrib) : Option (List Expr) × Option GoError :=
  match x with
  | .expr x => (some [x], none)
  | x =>
    (none, some ⟨"invalid expression list expression type; expected ast.Expr, got "
      ++ x.typeName⟩)

/-- The function AppendToExprList (lines 34-43); a nil slice is none. -/
def AppendToExprList (list x : Attrib) : Option (List Expr) × Option GoError :=
  match list with
  | .exprList lst =>
    match x with
    | .expr x => (some (lst ++ [x]), none)
    | x =>
      (none, some ⟨"invalid expression list expression type; expected ast.Expr, got "
        ++ x.typeName⟩)
  | list =>
    (none, some ⟨"invalid expression list type; expected []ast.Expr, got " ++ list.typeName⟩)

/-- The function NewRefExpr (lines 98-105).  Concat, which is not in expr.go, is
a parameter: it returns the literal text of the concatenated nodes or an
error. -/
def NewRefExpr (Concat : List Attrib → Except GoError String) (refNode : List Attrib) :
    Option Expr × Option GoError :=
  match Concat refNode with
  | .error err => (none, some err)
  | .ok lit => (some (.exprRef (TrimSpace lit) none), none)

/-- A call of a method on a node. -/
inductive NodeCall
  | init (resolver : CompositeResolver) (root : Bool)
  | eval (scope : Scope)

/-- The node after a call of one of its methods: Init assigns, Eval does not. -/
def nodeAfter (e : Expr) : NodeCall → Expr
  | .init resolver root => (Init resolver root e).node
  | .eval _ => e

/-- The node after a sequence of calls. -/
def nodeAfterAll (e : Expr) (calls : List NodeCall) : Expr :=
  calls.foldl nodeAfter e

/-- A reference node holds a raw reference string when its field ref is not the
empty string. -/
def holdsRawString : Expr → Bool
  | .exprRef ref _ => decide (ref ≠ "")
  | _ => false

/-- A reference node holds a Resolution when its field res is not nil. -/
def holdsResolution : Expr → Bool
  | .exprRef _ res => res.isSome
  | _ => false

/-- The reference strings of the reference nodes of a tree, the children of a
ternary in the order if, then, else. -/
def refsOf : Expr → List String
  | .exprRef ref _ => [ref]
  | .exprTernary ifExpr thenExpr elseExpr => refsOf ifExpr ++ refsOf thenExpr ++ refsOf elseExpr
  | .other _ => []

/-- A tree built from ternary and reference nodes only. -/
def refTernaryOnly : Expr → Bool
  | .exprRef _ _ => true
  | .exprTernary ifExpr thenExpr elseExpr =>
    refTernaryOnly ifExpr && refTernaryOnly thenExpr && refTernaryOnly elseExpr
  | .other _ => false

/-- The specification of Init on a list of reference strings, in the words of
the spec: the strings are submitted to the resolver from left to right up to and
including the first one it cannot bind, whose error is the result. -/
def submitUntilFailure (resolver : CompositeResolver) :
    List String → List String × Option GoError
  | [] => ([], none)
  | ref :: rest =>
    match (resolver.GetResolution ref).2 with
    | some err => ([ref], some err)
    | none =>
      (ref :: (submitUntilFailure resolver rest).1, (submitUntilFailure resolver rest).2)

/-- The root flag with which the reference strings of a tree are submitted: the
flag of the call for a reference node, false below a ternary. -/
def submitFlag (root : Bool) : Expr → Bool
  | .exprRef _ _ => root
  | _ => false

/-! ## Concrete collaborators of the expression tree, for evaluation -/

/-- A Resolution that reads a key of the scope and fails when it is absent. -/
def keyResolution (key : String) : Resolution :=
  ⟨fun scope =>
    match scope.values.get key with
    | some v => (v, none)
    | none => (.nil, some ⟨"no value for " ++ key⟩)⟩

/-- A resolver that binds the references that start with a dollar sign and a
dot to the key that follows, and no other. -/
def sampleResolver : CompositeResolver :=
  ⟨fun ref =>
    if ref.data.take 2 = [Char.ofNat 36, Char.ofNat 46] then
      (some (keyResolution ⟨ref.data.drop 2⟩), none)
    else (none, some ⟨"unable to resolve " ++ ref⟩)⟩

/-- A node of another kind that evaluates to the given value on every scope. -/
def constNode (id : Nat) (v : Value) : Expr :=
  .other ⟨id, "*ast.literal", fun _ _ => none, fun _ => (v, none)⟩

/-- A node of another kind whose evaluation fails with the given error. -/
def errNode (id : Nat) (e : GoError) : Expr :=
  .other ⟨id, "*ast.literal", fun _ _ => none, fun _ => (.nil, some e)⟩

/-- Modelled from the spec: one coercion in the shape of coerce.ToBool, whose
conversion rules the sources leave out: booleans, the strings true and false,
and integers by being non-zero; it serves to evaluate Eval on concrete
inputs. -/
def sampleToBool : ToBool
  | .bool b => (b, none)
  | .str "true" => (true, none)
  | .str "false" => (false, none)
  | .int n => (decide (n ≠ 0), none)
  | v => (false, some ⟨"unable to coerce " ++ fmtV v ++ " to bool"⟩)

end ast

namespace trigger

/-! ## Lemmas on the scan and on the trace -/

theorem scanActs_unguarded (scope : Scope) (i : Nat) (v : actImpl) (rest : List actImpl)
    (hv : guardResult scope v = none) :
    scanActs scope i (v :: rest) = (.ok v, []) := by
  unfold guardResult at hv
  cases hc : v.condition with
  | none => simp [scanActs, hc]
  | some c => simp [hc] at hv

theorem scanActs_true (scope : Scope) (i : Nat) (v : actImpl) (rest : List actImpl)
    (hv : guardResult scope v = some (.bool true, none)) :
    scanActs scope i (v :: rest) = (.ok v, [.evalGuard i]) := by
  unfold guardResult at hv
  cases hc : v.condition with
  | none => simp [hc] at hv
  | some c =>
    simp only [hc, Option.some.injEq] at hv
    simp [scanActs, hc, hv]

theorem scanActs_false (scope : Scope) (i : Nat) (v : actImpl) (rest : List actImpl)
    (hv : guardResult scope v = some (.bool false, none)) :
    scanActs scope i (v :: rest)
      = ((scanActs scope (i + 1) rest).1, .evalGuard i :: (scanActs scope (i + 1) rest).2) := by
  unfold guardResult at hv
  cases hc : v.condition with
  | none => simp [hc] at hv
  | some c =>
    simp only [hc, Option.some.injEq] at hv
    simp [scanActs, hc, hv]

theorem scanActs_error (scope : Scope) (i : Nat) (v : actImpl) (rest : List actImpl)
    (val : Value) (e : GoError) (hv : guardResult scope v = some (val, some e)) :
    scanActs scope i (v :: rest) = (.error e, [.evalGuard i]) := by
  unfold guardResult at hv
  cases hc : v.condition with
  | none => simp [hc] at hv
  | some c =>
    simp only [hc, Option.some.injEq] at hv
    simp [scanActs, hc, hv]

theorem scanActs_nil_result (scope : Scope) (i : Nat) (v : actImpl) (rest : List actImpl)
    (hv : guardResult scope v = some (.nil, none)) :
    scanActs scope i (v :: rest)
      = (.error (errorsNew "expression has nil result"), [.evalGuard i]) := by
  unfold guardResult at hv
  cases hc : v.condition with
  | none => simp [hc] at hv
  | some c =>
    simp only [hc, Option.some.injEq] at hv
    simp [scanActs, hc, hv]

theorem scanActs_non_bool (scope : Scope) (i : Nat) (v : actImpl) (rest : List actImpl)
    (val : Value) (hv : guardResult scope v = some (val, none))
    (hnil : val ≠ .nil) (hnb : ∀ b, val ≠ .bool b) :
    scanActs scope i (v :: rest)
      = (.error (errorsNew "expression has a non-bool result"), [.evalGuard i]) := by
  unfold guardResult at hv
  cases hc : v.condition with
  | none => simp [hc] at hv
  | some c =>
    simp only [hc, Option.some.injEq] at hv
    cases val with
    | nil => exact absurd rfl hnil
    | bool b => exact absurd rfl (hnb b)
    | int n => simp [scanActs, hc, hv]
    | str s => simp [scanActs, hc, hv]

theorem scanActs_false_run (scope : Scope) (pre rest : List actImpl) (i : Nat)
    (hpre : ∀ v ∈ pre, guardResult scope v = some (.bool false, none)) :
    scanActs scope i (pre ++ rest)
      = ((scanActs scope (i + pre.length) rest).1,
          (List.range' i pre.length).map Event.evalGuard
            ++ (scanActs scope (i + pre.length) rest).2) := by
  induction pre generalizing i with
  | nil => simp
  | cons v pre ih =>
    have hv := hpre v (List.mem_cons_self v pre)
    have hrest : ∀ w ∈ pre, guardResult scope w = some (.bool false, none) :=
      fun w hw => hpre w (List.mem_cons_of_mem v hw)
    rw [List.cons_append, scanActs_false scope i v (pre ++ rest) hv, ih (i + 1) hrest]
    simp [List.range'_succ, Nat.add_assoc, Nat.add_comm 1]

theorem buildInput_trace (act : actImpl) (tv : GoMap) :
    ∀ e ∈ (buildInput act tv).2.2, e = Event.applyInputMapper := by
  unfold buildInput
  cases act.actionInputMapper <;> simp

theorem coerceInputs_trace (toType : ToType) (fields : List (String × DataType)) (m : GoMap) :
    ∀ e ∈ (coerceInputs toType fields m).2.2, ∃ name, e = Event.coerce name := by
  induction fields generalizing m with
  | nil => simp [coerceInputs]
  | cons f rest ih =>
    obtain ⟨name, tv⟩ := f
    intro e he
    unfold coerceInputs at he
    split at he
    · split at he
      · simp at he; exact ⟨name, he⟩
      · simp only [List.mem_cons] at he
        rcases he with he | he
        · exact ⟨name, he⟩
        · exact ih _ e he
    · exact ih _ e he

theorem coercePass_trace (toType : ToType) (a : Action) (m : GoMap) :
    ∀ e ∈ (coercePass toType a m).2.2, ∃ name, e = Event.coerce name := by
  unfold coercePass
  cases a.ioMetadata with
  | none => simp
  | some md => exact coerceInputs_trace toType md.Input m

theorem runAndShape_trace (h : handlerImpl) (ctx : Context) (act : actImpl) (a : Action)
    (m : GoMap) :
    (runAndShape h ctx act a m).2.2 = [Event.runAction a m]
      ∨ (runAndShape h ctx act a m).2.2 = [Event.runAction a m, Event.applyOutputMapper] := by
  unfold runAndShape
  split
  · simp
  · split <;> simp

/-- The outcome of Handle once the payload is normalised and the scan has left
the loop with a binding whose action handle is not nil. -/
theorem Handle_selected (toType : ToType) (h : handlerImpl) (ctx : Context)
    (td : TriggerData) (tv : GoMap) (act : actImpl) (a : Action) (tr : List Event)
    (hn : normalize td = .ok tv)
    (hscan : scanActs (NewSimpleScope tv) 0 h.acts = (.ok act, tr))
    (hact : act.act = some a) :
    Handle toType h ctx td =
      match (buildInput act tv).2.1 with
      | some err => ⟨none, some err, tr ++ (buildInput act tv).2.2, tv⟩
      | none =>
        match (coercePass toType a (buildInput act tv).1).2.1 with
        | some err =>
          ⟨none, some err,
            tr ++ (buildInput act tv).2.2 ++ (coercePass toType a (buildInput act tv).1).2.2,
            if act.actionInputMapper.isNone then (coercePass toType a (buildInput act tv).1).1
            else tv⟩
        | none =>
          ⟨(runAndShape h ctx act a (coercePass toType a (buildInput act tv).1).1).1,
            (runAndShape h ctx act a (coercePass toType a (buildInput act tv).1).1).2.1,
            tr ++ (buildInput act tv).2.2 ++ (coercePass toType a (buildInput act tv).1).2.2
              ++ (runAndShape h ctx act a (coercePass toType a (buildInput act tv).1).1).2.2,
            if act.actionInputMapper.isNone then (coercePass toType a (buildInput act tv).1).1
            else tv⟩ := by
  simp only [Handle, hn, hscan, hact]
  rcases hbi : buildInput act tv with ⟨im, _ | e, trIn⟩
  · simp only
    rcases hco : coercePass toType a im with ⟨co, _ | e, trCo⟩
    · simp only
    · simp only
  · simp only

/-- The scan of bindings whose first k guards evaluate to false and whose
binding k has no guard or a guard evaluating to true leaves the loop with
binding k, having evaluated the guards up to k at most. -/
theorem scanActs_selects (scope : Scope) (pre post : List actImpl) (bk : actImpl)
    (hpre : ∀ v ∈ pre, guardResult scope v = some (.bool false, none))
    (hk : guardResult scope bk = none ∨ guardResult scope bk = some (.bool true, none)) :
    ∃ tr, scanActs scope 0 (pre ++ bk :: post) = (.ok bk, tr)
      ∧ ∀ e ∈ tr, ∃ j, e = Event.evalGuard j ∧ j ≤ pre.length := by
  rw [scanActs_false_run scope pre (bk :: post) 0 hpre]
  rcases hk with hk | hk
  · rw [scanActs_unguarded scope _ bk post hk]
    refine ⟨_, rfl, ?_⟩
    intro e he
    simp only [List.append_nil, List.mem_map, List.mem_range'_1] at he
    obtain ⟨j, hj, rfl⟩ := he
    exact ⟨j, rfl, by omega⟩
  · rw [scanActs_true scope _ bk post hk]
    refine ⟨_, rfl, ?_⟩
    intro e he
    simp only [List.mem_append, List.mem_map, List.mem_range'_1, List.mem_singleton] at he
    rcases he with ⟨j, hj, rfl⟩ | rfl
    · exact ⟨j, rfl, by omega⟩
    · exact ⟨0 + pre.length, rfl, by omega⟩

/-- The events Handle records after the scan, for a selected binding. -/
theorem Handle_selected_events (toType : ToType) (h : handlerImpl) (ctx : Context)
    (td : TriggerData) (tv : GoMap) (act : actImpl) (a : Action) (tr : List Event)
    (hn : normalize td = .ok tv)
    (hscan : scanActs (NewSimpleScope tv) 0 h.acts = (.ok act, tr))
    (hact : act.act = some a) :
    (∀ e ∈ (Handle toType h ctx td).trace,
        e ∈ tr ∨ e = Event.applyInputMapper ∨ (∃ name, e = Event.coerce name)
          ∨ e = Event.runAction a (coercedInput toType act a tv) ∨ e = Event.applyOutputMapper)
      ∧ ((buildInput act tv).2.1 = none →
          (coercePass toType a (buildInput act tv).1).2.1 = none →
          Event.runAction a (coercedInput toType act a tv) ∈ (Handle toType h ctx td).trace)
      ∧ (¬ ((buildInput act tv).2.1 = none ∧ (coercePass toType a (buildInput act tv).1).2.1 = none) →
          ∀ e ∈ (Handle toType h ctx td).trace,
            e ∈ tr ∨ e = Event.applyInputMapper ∨ (∃ name, e = Event.coerce name)) := by
  rw [Handle_selected toType h ctx td tv act a tr hn hscan hact]
  have hbi := buildInput_trace act tv
  have hco := coercePass_trace toType a (buildInput act tv).1
  have hrun := runAndShape_trace h ctx act a (coercePass toType a (buildInput act tv).1).1
  unfold coercedInput
  cases h1 : (buildInput act tv).2.1 with
  | some e1 =>
    simp only [List.mem_append]
    refine ⟨?_, (by intro hc; cases hc), ?_⟩
    · rintro e (he | he)
      · exact Or.inl he
      · exact Or.inr (Or.inl (hbi e he))
    · rintro _ e (he | he)
      · exact Or.inl he
      · exact Or.inr (Or.inl (hbi e he))
  | none =>
    cases h2 : (coercePass toType a (buildInput act tv).1).2.1 with
    | some e2 =>
      simp only [List.mem_append]
      refine ⟨?_, (by intro _ hc; cases hc), ?_⟩
      · rintro e ((he | he) | he)
        · exact Or.inl he
        · exact Or.inr (Or.inl (hbi e he))
        · exact Or.inr (Or.inr (Or.inl (hco e he)))
      · rintro _ e ((he | he) | he)
        · exact Or.inl he
        · exact Or.inr (Or.inl (hbi e he))
        · exact Or.inr (Or.inr (hco e he))
    | none =>
      simp only [List.mem_append]
      refine ⟨?_, ?_, (by intro hc; exact absurd ⟨trivial, trivial⟩ hc)⟩
      · rintro e (((he | he) | he) | he)
        · exact Or.inl he
        · exact Or.inr (Or.inl (hbi e he))
        · exact Or.inr (Or.inr (Or.inl (hco e he)))
        · rcases hrun with hr | hr
          · rw [hr] at he
            simp only [List.mem_singleton] at he
            exact Or.inr (Or.inr (Or.inr (Or.inl he)))
          · rw [hr] at he
            simp only [List.mem_cons, List.mem_singleton, List.not_mem_nil, or_false] at he
            rcases he with he | he
            · exact Or.inr (Or.inr (Or.inr (Or.inl he)))
            · exact Or.inr (Or.inr (Or.inr (Or.inr he)))
      · intro _ _
        refine Or.inr ?_
        rcases hrun with hr | hr <;> rw [hr] <;> simp

/-! ## Lemmas on maps and on the coercion loop -/

theorem entries_get_set_self (es : Entries) (k : String) (v : Value) :
    (es.set k v).get k = some v := by
  induction es with
  | nil => simp [Entries.set, Entries.get]
  | cons p rest ih =>
    obtain ⟨k0, w⟩ := p
    by_cases hk : k0 = k
    · simp [Entries.set, Entries.get, hk]
    · simp [Entries.set, Entries.get, hk, ih]

theorem entries_get_set_other (es : Entries) (k k1 : String) (v : Value) (hne : k1 ≠ k) :
    (es.set k v).get k1 = es.get k1 := by
  induction es with
  | nil => simp [Entries.set, Entries.get, Ne.symm hne]
  | cons p rest ih =>
    obtain ⟨k0, w⟩ := p
    by_cases hk : k0 = k
    · subst hk
      simp [Entries.set, Entries.get, Ne.symm hne]
    · by_cases hk1 : k0 = k1
      · subst hk1
        simp [Entries.set, Entries.get, hk]
      · simp [Entries.set, Entries.get, hk, hk1, ih]

theorem goMap_get_set_self (m : GoMap) (k : String) (v val : Value)
    (hpresent : m.get k = some val) : (m.set k v).get k = some v := by
  cases m with
  | none => simp [GoMap.get] at hpresent
  | some es => simp [GoMap.get, GoMap.set, entries_get_set_self]

theorem goMap_get_set_other (m : GoMap) (k k1 : String) (v : Value) (hne : k1 ≠ k) :
    (m.set k v).get k1 = m.get k1 := by
  cases m with
  | none => simp [GoMap.get, GoMap.set]
  | some es => simp [GoMap.get, GoMap.set, entries_get_set_other es k k1 v hne]

/-- The coercion loop writes only keys that are present: the key set of the map
is the same after the loop, whether or not a coercion failed. -/
theorem coerceInputs_keys (toType : ToType) (fields : List (String × DataType)) (m : GoMap)
    (k : String) :
    ((coerceInputs toType fields m).1.get k).isSome = (m.get k).isSome := by
  induction fields generalizing m with
  | nil => simp [coerceInputs]
  | cons f rest ih =>
    obtain ⟨name, tv⟩ := f
    have hset : ∀ val v, m.get name = some val →
        ((m.set name v).get k).isSome = (m.get k).isSome := by
      intro val v hval
      by_cases hk : k = name
      · subst hk
        rw [goMap_get_set_self m k v val hval, hval]
        rfl
      · rw [goMap_get_set_other m name k v hk]
    unfold coerceInputs
    split
    · rename_i val hval
      split
      · exact hset val _ hval
      · simp only
        rw [ih]
        exact hset val _ hval
    · exact ih m

/-- The coercion loop writes only keys that are declared: a key that is not
declared keeps its value, whether or not a coercion failed. -/
theorem coerceInputs_frame (toType : ToType) (fields : List (String × DataType)) (m : GoMap)
    (k : String) (hk : ∀ t, (k, t) ∉ fields) :
    (coerceInputs toType fields m).1.get k = m.get k := by
  induction fields generalizing m with
  | nil => simp [coerceInputs]
  | cons f rest ih =>
    obtain ⟨name, tv⟩ := f
    have hne : k ≠ name := by
      intro h
      exact hk tv (by rw [h]; exact List.mem_cons_self _ _)
    have hrest : ∀ t, (k, t) ∉ rest := fun t ht => hk t (List.mem_cons_of_mem _ ht)
    unfold coerceInputs
    split
    · split
      · exact goMap_get_set_other m name k _ hne
      · simp only
        rw [ih _ hrest]
        exact goMap_get_set_other m name k _ hne
    · exact ih m hrest

/-- When the declared names are pairwise distinct and every coercion succeeds,
the loop returns no error and binds each declared key that is present to the
coercion of its original value. -/
theorem coerceInputs_success (toType : ToType) (fields : List (String × DataType)) (m : GoMap)
    (hnd : (fields.map Prod.fst).Nodup)
    (hok : allCoercionsSucceed toType fields m) :
    (coerceInputs toType fields m).2.1 = none
      ∧ ∀ k t, (k, t) ∈ fields →
          (coerceInputs toType fields m).1.get k = (m.get k).map (fun v => (toType v t).1) := by
  induction fields generalizing m with
  | nil => simp [coerceInputs]
  | cons f rest ih =>
    obtain ⟨name, tv⟩ := f
    simp only [List.map_cons, List.nodup_cons, List.mem_map, Prod.exists, exists_and_right,
      exists_eq_right, not_exists] at hnd
    obtain ⟨hnot, hndr⟩ := hnd
    have hokr : allCoercionsSucceed toType rest m :=
      fun n t v hm hg => hok n t v (List.mem_cons_of_mem _ hm) hg
    cases hval : m.get name with
    | none =>
      have hstep : coerceInputs toType ((name, tv) :: rest) m = coerceInputs toType rest m := by
        simp [coerceInputs, hval]
      rw [hstep]
      obtain ⟨h1, h2⟩ := ih m hndr hokr
      refine ⟨h1, ?_⟩
      intro k t hkt
      rcases List.mem_cons.1 hkt with heq | hmem
      · cases heq
        rw [coerceInputs_frame toType rest m name hnot, hval]
        rfl
      · exact h2 k t hmem
    | some val =>
      have hsucc : (toType val tv).2 = none := hok name tv val (List.mem_cons_self _ _) hval
      have hstep : coerceInputs toType ((name, tv) :: rest) m
          = ((coerceInputs toType rest (m.set name (toType val tv).1)).1,
              (coerceInputs toType rest (m.set name (toType val tv).1)).2.1,
              Event.coerce name :: (coerceInputs toType rest (m.set name (toType val tv).1)).2.2) := by
        simp [coerceInputs, hval, hsucc]
      rw [hstep]
      have hok1 : allCoercionsSucceed toType rest (m.set name (toType val tv).1) := by
        intro n t v hm hg
        have hne : n ≠ name := fun h => hnot t (h ▸ hm)
        rw [goMap_get_set_other m name n _ hne] at hg
        exact hokr n t v hm hg
      obtain ⟨h1, h2⟩ := ih _ hndr hok1
      refine ⟨h1, ?_⟩
      intro k t hkt
      rcases List.mem_cons.1 hkt with heq | hmem
      · cases heq
        simp only
        rw [coerceInputs_frame toType rest _ name hnot,
          goMap_get_set_self m name _ val hval, hval]
        rfl
      · have hne : k ≠ name := fun h => hnot t (h ▸ hmem)
        simp only
        rw [h2 k t hmem, goMap_get_set_other m name k _ hne]

/-! ## Dispatch -/

/-- The outcome of Handle when the scan returns an error from inside the loop. -/
theorem Handle_scan_error (toType : ToType) (h : handlerImpl) (ctx : Context)
    (td : TriggerData) (tv : GoMap) (e : GoError) (tr : List Event)
    (hn : normalize td = .ok tv)
    (hscan : scanActs (NewSimpleScope tv) 0 h.acts = (.error e, tr)) :
    Handle toType h ctx td = ⟨none, some e, tr, tv⟩ := by
  simp only [Handle, hn, hscan]

/-- The guard evaluations of a scan that stops at binding k. -/
theorem mem_guard_run (k j : Nat) (act : Action) (input : GoMap) :
    (Event.evalGuard j ∈ (List.range' 0 k).map Event.evalGuard ++ [Event.evalGuard (0 + k)]
        → j ≤ k)
      ∧ Event.runAction act input ∉
          (List.range' 0 k).map Event.evalGuard ++ [Event.evalGuard (0 + k)] := by
  constructor
  · intro hj
    simp only [List.mem_append, List.mem_map, List.mem_range'_1, List.mem_singleton,
      Event.evalGuard.injEq] at hj
    rcases hj with ⟨i, hi, rfl⟩ | rfl <;> omega
  · simp

/-- C1 (amended).  First-match dispatch: when every guard before index k
evaluates without error to false and binding k has no guard or a guard that
evaluates without error to true, and the action handle of binding k is not nil,
then no guard of a binding after k is evaluated, every invocation of the Runner
is with the action of binding k and its coerced input mapping, and the Runner is
invoked with that action whenever the input mapper of binding k (if any) and the
coercion pass succeed; when one of them fails the Runner is not invoked. -/
theorem handle_first_match (toType : ToType) (h : handlerImpl) (ctx : Context)
    (td : TriggerData) (tv : GoMap) (pre post : List actImpl) (bk : actImpl) (a : Action)
    (hn : normalize td = .ok tv)
    (hacts : h.acts = pre ++ bk :: post)
    (hpre : ∀ v ∈ pre, guardResult (NewSimpleScope tv) v = some (.bool false, none))
    (hk : guardResult (NewSimpleScope tv) bk = none
      ∨ guardResult (NewSimpleScope tv) bk = some (.bool true, none))
    (ha : bk.act = some a) :
    (∀ j, Event.evalGuard j ∈ (Handle toType h ctx td).trace → j ≤ pre.length)
      ∧ (∀ act input, Event.runAction act input ∈ (Handle toType h ctx td).trace →
          act = a ∧ input = coercedInput toType bk a tv)
      ∧ ((buildInput bk tv).2.1 = none →
          (coercePass toType a (buildInput bk tv).1).2.1 = none →
          Event.runAction a (coercedInput toType bk a tv) ∈ (Handle toType h ctx td).trace)
      ∧ (¬ ((buildInput bk tv).2.1 = none
            ∧ (coercePass toType a (buildInput bk tv).1).2.1 = none) →
          ∀ act input, Event.runAction act input ∉ (Handle toType h ctx td).trace) := by
  obtain ⟨tr, hscan, htr⟩ := scanActs_selects (NewSimpleScope tv) pre post bk hpre hk
  rw [← hacts] at hscan
  obtain ⟨hall, hrun, hfail⟩ := Handle_selected_events toType h ctx td tv bk a tr hn hscan ha
  refine ⟨?_, ?_, hrun, ?_⟩
  · intro j hj
    rcases hall _ hj with he | he | ⟨name, he⟩ | he | he
    · obtain ⟨i, hi, hle⟩ := htr _ he
      cases hi
      exact hle
    all_goals cases he
  · intro act input hmem
    rcases hall _ hmem with he | he | ⟨name, he⟩ | he | he
    · obtain ⟨i, hi, _⟩ := htr _ he
      cases hi
    · cases he
    · cases he
    · cases he
      exact ⟨rfl, rfl⟩
    · cases he
  · intro hnot act input hmem
    rcases hfail hnot _ hmem with he | he | ⟨name, he⟩
    · obtain ⟨i, hi, _⟩ := htr _ he
      cases hi
    · cases he
    · cases he

/-- C2.  No match: when every binding carries a guard and every guard evaluates
without error to false (a handler with no bindings included), Handle returns a
nil result with the error "no action to execute", evaluates each guard once in
order and never invokes the Runner. -/
theorem handle_no_match (toType : ToType) (h : handlerImpl) (ctx : Context)
    (td : TriggerData) (tv : GoMap)
    (hn : normalize td = .ok tv)
    (hall : ∀ v ∈ h.acts, guardResult (NewSimpleScope tv) v = some (.bool false, none)) :
    (Handle toType h ctx td).results = none
      ∧ (Handle toType h ctx td).err = some (errorsNew "no action to execute")
      ∧ (Handle toType h ctx td).trace = (List.range h.acts.length).map Event.evalGuard
      ∧ ∀ act input, Event.runAction act input ∉ (Handle toType h ctx td).trace := by
  have hscan := scanActs_false_run (NewSimpleScope tv) h.acts [] 0 hall
  simp only [List.append_nil, scanActs] at hscan
  have hH : Handle toType h ctx td
      = ⟨none, some (errorsNew "no action to execute"),
          (List.range h.acts.length).map Event.evalGuard, tv⟩ := by
    simp only [Handle, hn, hscan, actImpl.zero, List.range_eq_range']
  rw [hH]
  refine ⟨rfl, rfl, rfl, ?_⟩
  intro act input hmem
  simp at hmem

/-- C3.  Guard result errors: when every guard before binding k evaluates
without error to false and the guard of binding k evaluates without error to a
value that is not a boolean, Handle returns a nil result with the error
"expression has nil result" if the value is nil and "expression has a non-bool
result" otherwise; no guard after k is evaluated and the Runner is not
invoked. -/
theorem handle_guard_result_error (toType : ToType) (h : handlerImpl) (ctx : Context)
    (td : TriggerData) (tv : GoMap) (pre post : List actImpl) (bk : actImpl) (val : Value)
    (hn : normalize td = .ok tv)
    (hacts : h.acts = pre ++ bk :: post)
    (hpre : ∀ v ∈ pre, guardResult (NewSimpleScope tv) v = some (.bool false, none))
    (hk : guardResult (NewSimpleScope tv) bk = some (val, none))
    (hnb : ∀ b, val ≠ .bool b) :
    (Handle toType h ctx td).results = none
      ∧ (val = .nil → (Handle toType h ctx td).err = some (errorsNew "expression has nil result"))
      ∧ (val ≠ .nil →
          (Handle toType h ctx td).err = some (errorsNew "expression has a non-bool result"))
      ∧ (∀ j, Event.evalGuard j ∈ (Handle toType h ctx td).trace → j ≤ pre.length)
      ∧ ∀ act input, Event.runAction act input ∉ (Handle toType h ctx td).trace := by
  have hscan := scanActs_false_run (NewSimpleScope tv) pre (bk :: post) 0 hpre
  rw [← hacts] at hscan
  by_cases hnil : val = .nil
  · subst hnil
    rw [scanActs_nil_result (NewSimpleScope tv) _ bk post hk] at hscan
    rw [Handle_scan_error toType h ctx td tv _ _ hn hscan]
    exact ⟨rfl, fun _ => rfl, fun hc => absurd rfl hc,
      fun j hj => (mem_guard_run pre.length j ⟨0, none⟩ none).1 hj,
      fun act input => (mem_guard_run pre.length 0 act input).2⟩
  · rw [scanActs_non_bool (NewSimpleScope tv) _ bk post val hk hnil hnb] at hscan
    rw [Handle_scan_error toType h ctx td tv _ _ hn hscan]
    exact ⟨rfl, fun hc => absurd hc hnil, fun _ => rfl,
      fun j hj => (mem_guard_run pre.length j ⟨0, none⟩ none).1 hj,
      fun act input => (mem_guard_run pre.length 0 act input).2⟩

/-- C4.  Guard evaluation error: when every guard before binding k evaluates
without error to false and the guard of binding k returns an error e, Handle
returns a nil result with the error e itself; no guard after k is evaluated,
whatever the later bindings are, and the Runner is not invoked. -/
theorem handle_guard_eval_error (toType : ToType) (h : handlerImpl) (ctx : Context)
    (td : TriggerData) (tv : GoMap) (pre post : List actImpl) (bk : actImpl) (val : Value)
    (e : GoError)
    (hn : normalize td = .ok tv)
    (hacts : h.acts = pre ++ bk :: post)
    (hpre : ∀ v ∈ pre, guardResult (NewSimpleScope tv) v = some (.bool false, none))
    (hk : guardResult (NewSimpleScope tv) bk = some (val, some e)) :
    (Handle toType h ctx td).results = none
      ∧ (Handle toType h ctx td).err = some e
      ∧ (∀ j, Event.evalGuard j ∈ (Handle toType h ctx td).trace → j ≤ pre.length)
      ∧ ∀ act input, Event.runAction act input ∉ (Handle toType h ctx td).trace := by
  have hscan := scanActs_false_run (NewSimpleScope tv) pre (bk :: post) 0 hpre
  rw [← hacts] at hscan
  rw [scanActs_error (NewSimpleScope tv) _ bk post val e hk] at hscan
  rw [Handle_scan_error toType h ctx td tv _ _ hn hscan]
  exact ⟨rfl, rfl, fun j hj => (mem_guard_run pre.length j ⟨0, none⟩ none).1 hj,
    fun act input => (mem_guard_run pre.length 0 act input).2⟩

/-- Witness of C1 (amended) on the bindings [guard=false, guard=true, no-guard]:
the Runner is invoked with the action of the second binding. -/
theorem handle_first_match_witness :
    Event.runAction (plainAction 1) (coercedInput sampleToType trueBinding (plainAction 1) (some []))
      ∈ (Handle sampleToType (echoHandler [falseBinding, trueBinding, defaultBinding])
          (.base 0) (.mapValue (some []))).trace :=
  (handle_first_match sampleToType (echoHandler [falseBinding, trueBinding, defaultBinding])
    (.base 0) (.mapValue (some [])) (some []) [falseBinding] [defaultBinding] trueBinding
    (plainAction 1) rfl rfl (by decide) (Or.inr rfl) rfl).2.2.1 rfl rfl

/-- Counterexample to C1 as stated: on the bindings [guard=false, guard=true,
no-guard] with all action handles non-nil, where the second binding has an input
mapper that fails, the second binding is the first match and yet the Runner is
not invoked; Handle returns the error of the mapper. -/
theorem handle_first_match_runner_not_invoked :
    normalize (.mapValue (some [])) = .ok (some [])
      ∧ (∀ v ∈ [falseBinding, trueBindingBadMapper, defaultBinding], v.act.isSome = true)
      ∧ guardResult (NewSimpleScope (some [])) falseBinding = some (.bool false, none)
      ∧ guardResult (NewSimpleScope (some [])) trueBindingBadMapper = some (.bool true, none)
      ∧ (Handle sampleToType (echoHandler [falseBinding, trueBindingBadMapper, defaultBinding])
          (.base 0) (.mapValue (some []))).trace
          = [.evalGuard 0, .evalGuard 1, .applyInputMapper]
      ∧ (Handle sampleToType (echoHandler [falseBinding, trueBindingBadMapper, defaultBinding])
          (.base 0) (.mapValue (some []))).err = some ⟨"mapping failed"⟩ :=
  ⟨rfl, by decide, rfl, rfl, by decide, by decide⟩

/-- Witness of C2 on the single binding [guard=false] and a nil payload. -/
theorem handle_no_match_witness :
    (Handle sampleToType (echoHandler [falseBinding]) (.base 0) (.val .nil)).results = none
      ∧ (Handle sampleToType (echoHandler [falseBinding]) (.base 0) (.val .nil)).err
          = some (errorsNew "no action to execute")
      ∧ (Handle sampleToType (echoHandler [falseBinding]) (.base 0) (.val .nil)).trace
          = (List.range 1).map Event.evalGuard
      ∧ ∀ act input, Event.runAction act input
          ∉ (Handle sampleToType (echoHandler [falseBinding]) (.base 0) (.val .nil)).trace :=
  handle_no_match sampleToType (echoHandler [falseBinding]) (.base 0) (.val .nil) none rfl
    (by decide)

/-- Witness of C3 on the bindings [guard=false, guard="true", no-guard]: the
string is not coerced. -/
theorem handle_guard_result_error_witness :
    (Handle sampleToType (echoHandler [falseBinding, stringBinding, defaultBinding])
        (.base 0) (.val .nil)).err = some (errorsNew "expression has a non-bool result") :=
  (handle_guard_result_error sampleToType
    (echoHandler [falseBinding, stringBinding, defaultBinding]) (.base 0) (.val .nil) none
    [falseBinding] [defaultBinding] stringBinding (.str "true") rfl rfl (by decide) rfl
    (fun _ hb => Value.noConfusion hb)).2.2.1 (fun hb => Value.noConfusion hb)

/-- Witness of C4 on the bindings [guard=false, guard fails, no-guard]. -/
theorem handle_guard_eval_error_witness :
    (Handle sampleToType (echoHandler [falseBinding, errorBinding, defaultBinding])
        (.base 0) (.val .nil)).results = none
      ∧ (Handle sampleToType (echoHandler [falseBinding, errorBinding, defaultBinding])
        (.base 0) (.val .nil)).err = some ⟨"unresolved reference"⟩
      ∧ (∀ j, Event.evalGuard j
          ∈ (Handle sampleToType (echoHandler [falseBinding, errorBinding, defaultBinding])
              (.base 0) (.val .nil)).trace → j ≤ 1)
      ∧ ∀ act input, Event.runAction act input
          ∉ (Handle sampleToType (echoHandler [falseBinding, errorBinding, defaultBinding])
              (.base 0) (.val .nil)).trace :=
  handle_guard_eval_error sampleToType
    (echoHandler [falseBinding, errorBinding, defaultBinding]) (.base 0) (.val .nil) none
    [falseBinding] [defaultBinding] errorBinding .nil ⟨"unresolved reference"⟩ rfl rfl
    (by decide) rfl

/-! ## The coercion pass within Handle -/

/-- When the declared names are pairwise distinct and the coercion of some
declared field that is present fails, the loop returns the error that
coerce.ToType gave for such a field on its original value. -/
theorem coerceInputs_failure (toType : ToType) (fields : List (String × DataType)) (m : GoMap)
    (hnd : (fields.map Prod.fst).Nodup)
    (hfail : ∃ name t val, (name, t) ∈ fields ∧ m.get name = some val
      ∧ (toType val t).2 ≠ none) :
    ∃ name t val e, (name, t) ∈ fields ∧ m.get name = some val
      ∧ (toType val t).2 = some e ∧ (coerceInputs toType fields m).2.1 = some e := by
  induction fields generalizing m with
  | nil =>
    obtain ⟨_, _, _, hmem, _⟩ := hfail
    cases hmem
  | cons f rest ih =>
    obtain ⟨name, tv⟩ := f
    simp only [List.map_cons, List.nodup_cons, List.mem_map, Prod.exists, exists_and_right,
      exists_eq_right, not_exists] at hnd
    obtain ⟨hnot, hndr⟩ := hnd
    obtain ⟨n, t, v, hmem, hget, hbad⟩ := hfail
    cases hval : m.get name with
    | none =>
      have hstep : coerceInputs toType ((name, tv) :: rest) m = coerceInputs toType rest m := by
        simp [coerceInputs, hval]
      rw [hstep]
      have hin : (n, t) ∈ rest := by
        rcases List.mem_cons.1 hmem with heq | hr
        · cases heq
          rw [hval] at hget
          cases hget
        · exact hr
      obtain ⟨n1, t1, v1, e, hm1, hg1, hb1, hres⟩ := ih m hndr ⟨n, t, v, hin, hget, hbad⟩
      exact ⟨n1, t1, v1, e, List.mem_cons_of_mem _ hm1, hg1, hb1, hres⟩
    | some val =>
      cases herr : (toType val tv).2 with
      | some e =>
        refine ⟨name, tv, val, e, List.mem_cons_self _ _, hval, herr, ?_⟩
        simp [coerceInputs, hval, herr]
      | none =>
        have hstep : (coerceInputs toType ((name, tv) :: rest) m).2.1
            = (coerceInputs toType rest (m.set name (toType val tv).1)).2.1 := by
          simp [coerceInputs, hval, herr]
        rw [hstep]
        have hin : (n, t) ∈ rest := by
          rcases List.mem_cons.1 hmem with heq | hr
          · cases heq
            rw [hval] at hget
            cases hget
            exact absurd herr hbad
          · exact hr
        have hne : n ≠ name := fun h => hnot t (h ▸ hin)
        have hget1 : (m.set name (toType val tv).1).get n = some v := by
          rw [goMap_get_set_other m name n _ hne]
          exact hget
        obtain ⟨n1, t1, v1, e, hm1, hg1, hb1, hres⟩ :=
          ih _ hndr ⟨n, t, v, hin, hget1, hbad⟩
        have hne1 : n1 ≠ name := fun h => hnot t1 (h ▸ hm1)
        rw [goMap_get_set_other m name n1 _ hne1] at hg1
        exact ⟨n1, t1, v1, e, List.mem_cons_of_mem _ hm1, hg1, hb1, hres⟩

/-- The scan records guard evaluations only. -/
theorem scanActs_trace (scope : Scope) (acts : List actImpl) (i : Nat) :
    ∀ e ∈ (scanActs scope i acts).2, ∃ j, e = Event.evalGuard j := by
  induction acts generalizing i with
  | nil => simp [scanActs]
  | cons v rest ih =>
    intro e he
    unfold scanActs at he
    split at he
    · simp at he
    · split at he
      · simp at he; exact ⟨i, he⟩
      · simp at he; exact ⟨i, he⟩
      · simp at he; exact ⟨i, he⟩
      · simp only [List.mem_cons] at he
        rcases he with he | he
        · exact ⟨i, he⟩
        · exact ih (i + 1) e he
      · simp at he; exact ⟨i, he⟩

/-- Every Runner call of Handle is made with the action of the selected binding
and its coerced input mapping. -/
theorem Handle_runner_calls (toType : ToType) (h : handlerImpl) (ctx : Context)
    (td : TriggerData) (tv : GoMap) (act : actImpl) (a : Action) (tr : List Event)
    (hn : normalize td = .ok tv)
    (hscan : scanActs (NewSimpleScope tv) 0 h.acts = (.ok act, tr))
    (hact : act.act = some a) :
    ∀ a1 input, Event.runAction a1 input ∈ (Handle toType h ctx td).trace →
      a1 = a ∧ input = coercedInput toType act a tv := by
  intro a1 input hmem
  have htr : ∀ e ∈ tr, ∃ j, e = Event.evalGuard j := by
    have := scanActs_trace (NewSimpleScope tv) h.acts 0
    rw [hscan] at this
    exact this
  rcases (Handle_selected_events toType h ctx td tv act a tr hn hscan hact).1 _ hmem
    with he | he | ⟨name, he⟩ | he | he
  · obtain ⟨j, hj⟩ := htr _ he
    cases hj
  · cases he
  · cases he
  · cases he
    exact ⟨rfl, rfl⟩
  · cases he

/-- Handle does not call the Runner when the input mapper or the coercion pass
of the selected binding fails. -/
theorem Handle_no_runner_call (toType : ToType) (h : handlerImpl) (ctx : Context)
    (td : TriggerData) (tv : GoMap) (act : actImpl) (a : Action) (tr : List Event)
    (hn : normalize td = .ok tv)
    (hscan : scanActs (NewSimpleScope tv) 0 h.acts = (.ok act, tr))
    (hact : act.act = some a)
    (hnot : ¬ ((buildInput act tv).2.1 = none
      ∧ (coercePass toType a (buildInput act tv).1).2.1 = none)) :
    ∀ a1 input, Event.runAction a1 input ∉ (Handle toType h ctx td).trace := by
  intro a1 input hmem
  have htr : ∀ e ∈ tr, ∃ j, e = Event.evalGuard j := by
    have := scanActs_trace (NewSimpleScope tv) h.acts 0
    rw [hscan] at this
    exact this
  rcases (Handle_selected_events toType h ctx td tv act a tr hn hscan hact).2.2 hnot _ hmem
    with he | he | ⟨name, he⟩
  · obtain ⟨j, hj⟩ := htr _ he
    cases hj
  · cases he
  · cases he



/-- C5.  Coercion pass postcondition: for a selected binding with action a whose
input mapping m was built without error, (1) when a has metadata with pairwise
distinct field names and every coercion succeeds, the Runner is invoked with a
and a map that has the same key set as m, binds every declared key to
coerce-to-type of its original value and declared type, keeps the value of every
undeclared key and leaves absent every declared key that is absent from m; the
Runner is invoked with no other map; (2) when the metadata of a is nil, the
Runner is invoked with m itself. -/
theorem handle_coercion_postcondition (toType : ToType) (h : handlerImpl) (ctx : Context)
    (td : TriggerData) (tv : GoMap) (act : actImpl) (a : Action) (tr : List Event)
    (hn : normalize td = .ok tv)
    (hscan : scanActs (NewSimpleScope tv) 0 h.acts = (.ok act, tr))
    (hact : act.act = some a)
    (hin : (buildInput act tv).2.1 = none) :
    (∀ md, a.ioMetadata = some md → (md.Input.map Prod.fst).Nodup →
        allCoercionsSucceed toType md.Input (buildInput act tv).1 →
        Event.runAction a (coercedInput toType act a tv) ∈ (Handle toType h ctx td).trace
          ∧ (∀ a1 input, Event.runAction a1 input ∈ (Handle toType h ctx td).trace →
              input = coercedInput toType act a tv)
          ∧ (∀ k, ((coercedInput toType act a tv).get k).isSome
              = ((buildInput act tv).1.get k).isSome)
          ∧ (∀ k t, (k, t) ∈ md.Input →
              (coercedInput toType act a tv).get k
                = ((buildInput act tv).1.get k).map (fun v => (toType v t).1))
          ∧ (∀ k, (∀ t, (k, t) ∉ md.Input) →
              (coercedInput toType act a tv).get k = (buildInput act tv).1.get k)
          ∧ (∀ k t, (k, t) ∈ md.Input → (buildInput act tv).1.get k = none →
              (coercedInput toType act a tv).get k = none))
      ∧ (a.ioMetadata = none →
          Event.runAction a (buildInput act tv).1 ∈ (Handle toType h ctx td).trace
            ∧ ∀ a1 input, Event.runAction a1 input ∈ (Handle toType h ctx td).trace →
                input = (buildInput act tv).1) := by
  have hev := Handle_selected_events toType h ctx td tv act a tr hn hscan hact
  have hcalls := Handle_runner_calls toType h ctx td tv act a tr hn hscan hact
  constructor
  · intro md hmd hnd hok
    have hco : coercePass toType a (buildInput act tv).1
        = coerceInputs toType md.Input (buildInput act tv).1 := by
      simp [coercePass, hmd]
    have hci : coercedInput toType act a tv
        = (coerceInputs toType md.Input (buildInput act tv).1).1 := by
      simp [coercedInput, hco]
    obtain ⟨hnone, hdecl⟩ := coerceInputs_success toType md.Input (buildInput act tv).1 hnd hok
    refine ⟨hev.2.1 hin (by rw [hco]; exact hnone), fun a1 input hm => (hcalls a1 input hm).2,
      ?_, ?_, ?_, ?_⟩
    · intro k
      rw [hci]
      exact coerceInputs_keys toType md.Input (buildInput act tv).1 k
    · intro k t hkt
      rw [hci]
      exact hdecl k t hkt
    · intro k hk
      rw [hci]
      exact coerceInputs_frame toType md.Input (buildInput act tv).1 k hk
    · intro k t hkt habs
      rw [hci, hdecl k t hkt, habs]
      rfl
  · intro hmd
    have hco : coercePass toType a (buildInput act tv).1 = ((buildInput act tv).1, none, []) := by
      simp [coercePass, hmd]
    have hci : coercedInput toType act a tv = (buildInput act tv).1 := by
      simp [coercedInput, hco]
    refine ⟨?_, ?_⟩
    · have := hev.2.1 hin (by rw [hco])
      rw [hci] at this
      exact this
    · intro a1 input hm
      rw [← hci]
      exact (hcalls a1 input hm).2

/-- The contents of the trigger values after the coercion step, for a selected
binding with no input mapper: the result of the coercion pass on them. -/
theorem Handle_triggerValues_passthrough (toType : ToType) (h : handlerImpl) (ctx : Context)
    (td : TriggerData) (tv : GoMap) (act : actImpl) (a : Action) (tr : List Event)
    (hn : normalize td = .ok tv)
    (hscan : scanActs (NewSimpleScope tv) 0 h.acts = (.ok act, tr))
    (hact : act.act = some a)
    (hmap : act.actionInputMapper = none) :
    (Handle toType h ctx td).triggerValues = (coercePass toType a tv).1 := by
  rw [Handle_selected toType h ctx td tv act a tr hn hscan hact]
  have hbi : buildInput act tv = (tv, none, []) := by simp [buildInput, hmap]
  rw [hbi]
  simp only [hmap, Option.isNone_none, if_true]
  cases (coercePass toType a tv).2.1 <;> rfl

/-- The coercion step on a native map payload, for a binding with no input
mapper: the key set is kept, the keys that are not declared keep their values,
and nothing is written when the action has no metadata. -/
theorem Handle_payload_keys_and_frame (toType : ToType) (h : handlerImpl) (ctx : Context)
    (values : GoMap) (act : actImpl) (tr : List Event)
    (hscan : scanActs (NewSimpleScope values) 0 h.acts = (.ok act, tr))
    (hmap : act.actionInputMapper = none) :
    (∀ k, ((Handle toType h ctx (.mapValue values)).triggerValues.get k).isSome
        = (values.get k).isSome)
      ∧ (∀ k, (∀ a md t, act.act = some a → a.ioMetadata = some md → (k, t) ∉ md.Input) →
          (Handle toType h ctx (.mapValue values)).triggerValues.get k = values.get k)
      ∧ ((∀ a, act.act = some a → a.ioMetadata = none) →
          (Handle toType h ctx (.mapValue values)).triggerValues = values) := by
  have hn : normalize (.mapValue values) = .ok values := rfl
  cases hact : act.act with
  | none =>
    have hH : Handle toType h ctx (.mapValue values)
        = ⟨none, some (errorsNew "no action to execute"), tr, values⟩ := by
      simp only [Handle, hn, hscan, hact]
    rw [hH]
    exact ⟨fun _ => rfl, fun _ _ => rfl, fun _ => rfl⟩
  | some a =>
    rw [Handle_triggerValues_passthrough toType h ctx _ values act a tr hn hscan hact hmap]
    cases hmd : a.ioMetadata with
    | none =>
      have hco : coercePass toType a values = (values, none, []) := by simp [coercePass, hmd]
      rw [hco]
      exact ⟨fun _ => rfl, fun _ _ => rfl, fun _ => rfl⟩
    | some md =>
      have hco : coercePass toType a values = coerceInputs toType md.Input values := by
        simp [coercePass, hmd]
      rw [hco]
      refine ⟨fun k => coerceInputs_keys toType md.Input values k, ?_, ?_⟩
      · intro k hk
        exact coerceInputs_frame toType md.Input values k (fun t => hk a md t rfl hmd)
      · intro hnomd
        have hc := hnomd a rfl
        rw [hmd] at hc
        cases hc

/-- C7 (amended).  When the selected action declares pairwise distinct fields
and coerce-to-type fails for a declared field that is present in the input
mapping, Handle returns a nil result and, unchanged, the error that
coerce-to-type returned for such a field on its value and declared type; the
Runner is not invoked. -/
theorem handle_coercion_failure (toType : ToType) (h : handlerImpl) (ctx : Context)
    (td : TriggerData) (tv : GoMap) (act : actImpl) (a : Action) (tr : List Event)
    (md : IOMetadata)
    (hn : normalize td = .ok tv)
    (hscan : scanActs (NewSimpleScope tv) 0 h.acts = (.ok act, tr))
    (hact : act.act = some a)
    (hin : (buildInput act tv).2.1 = none)
    (hmd : a.ioMetadata = some md)
    (hnd : (md.Input.map Prod.fst).Nodup)
    (hfail : ∃ name t val, (name, t) ∈ md.Input ∧ (buildInput act tv).1.get name = some val
      ∧ (toType val t).2 ≠ none) :
    (Handle toType h ctx td).results = none
      ∧ (∃ name t val e, (name, t) ∈ md.Input ∧ (buildInput act tv).1.get name = some val
          ∧ (toType val t).2 = some e ∧ (Handle toType h ctx td).err = some e)
      ∧ ∀ a1 input, Event.runAction a1 input ∉ (Handle toType h ctx td).trace := by
  have hco : coercePass toType a (buildInput act tv).1
      = coerceInputs toType md.Input (buildInput act tv).1 := by
    simp [coercePass, hmd]
  obtain ⟨name, t, val, e, hmem, hget, herr, hres⟩ :=
    coerceInputs_failure toType md.Input (buildInput act tv).1 hnd hfail
  have hce : (coercePass toType a (buildInput act tv).1).2.1 = some e := by
    rw [hco]
    exact hres
  have hnorun := Handle_no_runner_call toType h ctx td tv act a tr hn hscan hact
    (by rw [hce]; rintro ⟨_, hc⟩; cases hc)
  have hH := Handle_selected toType h ctx td tv act a tr hn hscan hact
  simp only [hin, hce] at hH
  rw [hH] at hnorun ⊢
  exact ⟨rfl, ⟨name, t, val, e, hmem, hget, herr, rfl⟩, hnorun⟩

/-! ## The runner call and the shaping of its result -/

theorem runAndShape_error (h : handlerImpl) (ctx : Context) (act : actImpl) (a : Action)
    (m res : GoMap) (e : GoError)
    (hrun : h.runner.RunAction (NewHandlerContext ctx h.config) a m = (res, some e)) :
    runAndShape h ctx act a m = (none, some e, [.runAction a m]) := by
  simp [runAndShape, hrun]

theorem runAndShape_plain (h : handlerImpl) (ctx : Context) (act : actImpl) (a : Action)
    (m res : GoMap)
    (hrun : h.runner.RunAction (NewHandlerContext ctx h.config) a m = (res, none))
    (hout : act.actionOutputMapper = none) :
    runAndShape h ctx act a m = (res, none, [.runAction a m]) := by
  simp [runAndShape, hrun, hout]

theorem runAndShape_mapped (h : handlerImpl) (ctx : Context) (act : actImpl) (a : Action)
    (m res : GoMap) (om : Mapper)
    (hrun : h.runner.RunAction (NewHandlerContext ctx h.config) a m = (res, none))
    (hout : act.actionOutputMapper = some om) :
    runAndShape h ctx act a m
      = ((om.Apply (NewSimpleScope res)).1, (om.Apply (NewSimpleScope res)).2,
          [.runAction a m, .applyOutputMapper]) := by
  simp [runAndShape, hrun, hout]

/-- The outcome of Handle when the input mapping is built and coerced without
error: the outcome of the runner call and the shaping of its result. -/
theorem Handle_reached (toType : ToType) (h : handlerImpl) (ctx : Context)
    (td : TriggerData) (tv : GoMap) (act : actImpl) (a : Action) (tr : List Event)
    (hn : normalize td = .ok tv)
    (hscan : scanActs (NewSimpleScope tv) 0 h.acts = (.ok act, tr))
    (hact : act.act = some a)
    (hin : (buildInput act tv).2.1 = none)
    (hco : (coercePass toType a (buildInput act tv).1).2.1 = none) :
    (Handle toType h ctx td).results
        = (runAndShape h ctx act a (coercedInput toType act a tv)).1
      ∧ (Handle toType h ctx td).err
        = (runAndShape h ctx act a (coercedInput toType act a tv)).2.1
      ∧ (Handle toType h ctx td).trace
        = tr ++ (buildInput act tv).2.2 ++ (coercePass toType a (buildInput act tv).1).2.2
            ++ (runAndShape h ctx act a (coercedInput toType act a tv)).2.2 := by
  have hH := Handle_selected toType h ctx td tv act a tr hn hscan hact
  simp only [hin, hco] at hH
  rw [hH]
  exact ⟨rfl, rfl, rfl⟩

/-- A Runner call in the trace of Handle is a call with the action of the
selected binding and its coerced input mapping, made after the input mapping was
built and coerced without error. -/
theorem Handle_reaches_runner (toType : ToType) (h : handlerImpl) (ctx : Context)
    (td : TriggerData) (tv : GoMap) (act : actImpl) (a : Action) (input : GoMap)
    (tr : List Event)
    (hn : normalize td = .ok tv)
    (hscan : scanActs (NewSimpleScope tv) 0 h.acts = (.ok act, tr))
    (hreach : Event.runAction a input ∈ (Handle toType h ctx td).trace) :
    act.act = some a ∧ input = coercedInput toType act a tv
      ∧ (buildInput act tv).2.1 = none
      ∧ (coercePass toType a (buildInput act tv).1).2.1 = none := by
  have htr : ∀ e ∈ tr, ∃ j, e = Event.evalGuard j := by
    have := scanActs_trace (NewSimpleScope tv) h.acts 0
    rw [hscan] at this
    exact this
  cases hact : act.act with
  | none =>
    have hH : Handle toType h ctx td
        = ⟨none, some (errorsNew "no action to execute"), tr, tv⟩ := by
      simp only [Handle, hn, hscan, hact]
    rw [hH] at hreach
    obtain ⟨j, hj⟩ := htr _ hreach
    cases hj
  | some a0 =>
    obtain ⟨ha, hi⟩ := Handle_runner_calls toType h ctx td tv act a0 tr hn hscan hact a input hreach
    subst ha
    refine ⟨rfl, hi, ?_⟩
    by_contra hnot
    exact Handle_no_runner_call toType h ctx td tv act a tr hn hscan hact hnot a input hreach

/-- C6 (amended).  For a payload that is a native map and a scan that leaves
the loop with a binding that has no input mapper, the coercion step of Handle
writes into the payload map itself, but only at keys that are present and that
the selected action declares.  Once the coercion step is over, (1) the payload
has the same key set as before the call; (2) every key that the selected action
does not declare is bound to the same value as before the call; (3) the payload
is unchanged when the selected action has no metadata; (4) when the declared
field names are pairwise distinct and every coercion succeeds, every declared
key is bound to coerce-to-type of its value before the call and its declared
type, if it was present, and is absent otherwise; (5) the map handed to the
Runner, when Handle invokes it, is this payload map with these contents. -/
theorem handle_payload_frame (toType : ToType) (h : handlerImpl) (ctx : Context)
    (values : GoMap) (act : actImpl) (tr : List Event)
    (hscan : scanActs (NewSimpleScope values) 0 h.acts = (.ok act, tr))
    (hmap : act.actionInputMapper = none) :
    (∀ k, ((Handle toType h ctx (.mapValue values)).triggerValues.get k).isSome
        = (values.get k).isSome)
      ∧ (∀ k, (∀ a md t, act.act = some a → a.ioMetadata = some md → (k, t) ∉ md.Input) →
          (Handle toType h ctx (.mapValue values)).triggerValues.get k = values.get k)
      ∧ ((∀ a, act.act = some a → a.ioMetadata = none) →
          (Handle toType h ctx (.mapValue values)).triggerValues = values)
      ∧ (∀ a md, act.act = some a → a.ioMetadata = some md →
          (md.Input.map Prod.fst).Nodup → allCoercionsSucceed toType md.Input values →
          ∀ k t, (k, t) ∈ md.Input →
            (Handle toType h ctx (.mapValue values)).triggerValues.get k
              = (values.get k).map (fun v => (toType v t).1))
      ∧ (∀ a1 input, Event.runAction a1 input ∈ (Handle toType h ctx (.mapValue values)).trace →
          input = (Handle toType h ctx (.mapValue values)).triggerValues) := by
  have hn : normalize (.mapValue values) = .ok values := rfl
  obtain ⟨h1, h2, h3⟩ := Handle_payload_keys_and_frame toType h ctx values act tr hscan hmap
  refine ⟨h1, h2, h3, ?_, ?_⟩
  · intro a md hact hmd hnd hok k t hkt
    rw [Handle_triggerValues_passthrough toType h ctx _ values act a tr hn hscan hact hmap]
    have hco : coercePass toType a values = coerceInputs toType md.Input values := by
      simp [coercePass, hmd]
    rw [hco]
    exact (coerceInputs_success toType md.Input values hnd hok).2 k t hkt
  · intro a1 input hmem
    obtain ⟨hact, hinput, _, _⟩ :=
      Handle_reaches_runner toType h ctx _ values act a1 input tr hn hscan hmem
    rw [Handle_triggerValues_passthrough toType h ctx _ values act a1 tr hn hscan hact hmap,
      hinput]
    have hbi : buildInput act values = (values, none, []) := by simp [buildInput, hmap]
    simp [coercedInput, hbi]

/-- C8.  Output shaping: in a call of Handle that invokes the Runner with
(a, input) and in which the Runner returns (results, nil), Handle returns
exactly (results, nil) when the selected binding has no output mapper, and
exactly the pair that the output mapper returns on the scope built from results
when it has one, whatever that pair is. -/
theorem handle_output_shaping (toType : ToType) (h : handlerImpl) (ctx : Context)
    (td : TriggerData) (tv : GoMap) (act : actImpl) (a : Action) (input results : GoMap)
    (tr : List Event)
    (hn : normalize td = .ok tv)
    (hscan : scanActs (NewSimpleScope tv) 0 h.acts = (.ok act, tr))
    (hreach : Event.runAction a input ∈ (Handle toType h ctx td).trace)
    (hrun : h.runner.RunAction (NewHandlerContext ctx h.config) a input = (results, none)) :
    (act.actionOutputMapper = none →
        ((Handle toType h ctx td).results, (Handle toType h ctx td).err) = (results, none))
      ∧ (∀ om, act.actionOutputMapper = some om →
          ((Handle toType h ctx td).results, (Handle toType h ctx td).err)
            = om.Apply (NewSimpleScope results)) := by
  obtain ⟨hact, hinput, hin, hco⟩ :=
    Handle_reaches_runner toType h ctx td tv act a input tr hn hscan hreach
  obtain ⟨hres, herr, _⟩ := Handle_reached toType h ctx td tv act a tr hn hscan hact hin hco
  rw [hinput] at hrun
  constructor
  · intro hout
    rw [hres, herr, runAndShape_plain h ctx act a _ results hrun hout]
  · intro om hout
    rw [hres, herr, runAndShape_mapped h ctx act a _ results om hrun hout]

/-- C9.  Runner error propagation: in a call of Handle that invokes the Runner
with (a, input) and in which the Runner returns an error e, Handle returns
(nil, e) with e itself, and the output mapper is not applied. -/
theorem handle_runner_error (toType : ToType) (h : handlerImpl) (ctx : Context)
    (td : TriggerData) (tv : GoMap) (act : actImpl) (a : Action) (input res : GoMap)
    (e : GoError) (tr : List Event)
    (hn : normalize td = .ok tv)
    (hscan : scanActs (NewSimpleScope tv) 0 h.acts = (.ok act, tr))
    (hreach : Event.runAction a input ∈ (Handle toType h ctx td).trace)
    (hrun : h.runner.RunAction (NewHandlerContext ctx h.config) a input = (res, some e)) :
    (Handle toType h ctx td).results = none
      ∧ (Handle toType h ctx td).err = some e
      ∧ Event.applyOutputMapper ∉ (Handle toType h ctx td).trace := by
  obtain ⟨hact, hinput, hin, hco⟩ :=
    Handle_reaches_runner toType h ctx td tv act a input tr hn hscan hreach
  obtain ⟨hres, herr, htrace⟩ := Handle_reached toType h ctx td tv act a tr hn hscan hact hin hco
  rw [hinput] at hrun
  have hshape := runAndShape_error h ctx act a _ res e hrun
  rw [hshape] at hres herr htrace
  refine ⟨hres, herr, ?_⟩
  rw [htrace]
  intro hmem
  have htr : ∀ e ∈ tr, ∃ j, e = Event.evalGuard j := by
    have := scanActs_trace (NewSimpleScope tv) h.acts 0
    rw [hscan] at this
    exact this
  simp only [List.mem_append, List.mem_singleton] at hmem
  rcases hmem with ((hm | hm) | hm) | hm
  · obtain ⟨j, hj⟩ := htr _ hm
    cases hj
  · have := buildInput_trace act tv _ hm
    cases this
  · obtain ⟨name, hname⟩ := coercePass_trace toType a _ _ hm
    cases hname
  · cases hm

/-- The outcome of Handle for a selected binding, case by case: either the
returned map is nil and the output mapper was not applied, or there is no error,
or the Runner returned without error and the returned pair is that of the
output mapper of the selected binding. -/
theorem Handle_selected_cases (toType : ToType) (h : handlerImpl) (ctx : Context)
    (td : TriggerData) (tv : GoMap) (act : actImpl) (a : Action) (tr : List Event)
    (hn : normalize td = .ok tv)
    (hscan : scanActs (NewSimpleScope tv) 0 h.acts = (.ok act, tr))
    (hact : act.act = some a) :
    (Handle toType h ctx td).results = none
      ∨ (Handle toType h ctx td).err = none
      ∨ ∃ om results, act.actionOutputMapper = some om
          ∧ h.runner.RunAction (NewHandlerContext ctx h.config) a (coercedInput toType act a tv)
              = (results, none)
          ∧ (Handle toType h ctx td).results = (om.Apply (NewSimpleScope results)).1
          ∧ (Handle toType h ctx td).err = (om.Apply (NewSimpleScope results)).2
          ∧ Event.applyOutputMapper ∈ (Handle toType h ctx td).trace := by
  cases hin : (buildInput act tv).2.1 with
  | some e =>
    have hH := Handle_selected toType h ctx td tv act a tr hn hscan hact
    simp only [hin] at hH
    rw [hH]
    exact Or.inl rfl
  | none =>
    cases hco : (coercePass toType a (buildInput act tv).1).2.1 with
    | some e =>
      have hH := Handle_selected toType h ctx td tv act a tr hn hscan hact
      simp only [hin, hco] at hH
      rw [hH]
      exact Or.inl rfl
    | none =>
      obtain ⟨hres, herr, htrace⟩ :=
        Handle_reached toType h ctx td tv act a tr hn hscan hact hin hco
      rcases hrun : h.runner.RunAction (NewHandlerContext ctx h.config) a
          (coercedInput toType act a tv) with ⟨results, _ | e⟩
      · cases hout : act.actionOutputMapper with
        | none =>
          rw [runAndShape_plain h ctx act a _ results hrun hout] at herr
          exact Or.inr (Or.inl herr)
        | some om =>
          rw [runAndShape_mapped h ctx act a _ results om hrun hout] at hres herr htrace
          refine Or.inr (Or.inr ⟨om, results, rfl, rfl, hres, herr, ?_⟩)
          rw [htrace]
          simp
      · rw [runAndShape_error h ctx act a _ results e hrun] at hres
        exact Or.inl hres

/-- C10.  No partial result on error: when Handle returns a non-nil error
together with a non-nil map, a binding was selected that has an output mapper,
the Runner returned without error, and the returned pair is exactly the pair the
output mapper returned on the scope built from the result of the Runner; when
Handle returns a non-nil error and the output mapper was not applied (the
payload is unsupported, a guard fails, no binding matches, the input mapper, a
coercion or the Runner fails), the returned map is nil. -/
theorem handle_no_partial_result (toType : ToType) (h : handlerImpl) (ctx : Context)
    (td : TriggerData) :
    ((Handle toType h ctx td).err ≠ none → (Handle toType h ctx td).results ≠ none →
        ∃ tv act tr a om results,
          normalize td = .ok tv
            ∧ scanActs (NewSimpleScope tv) 0 h.acts = (.ok act, tr)
            ∧ act.act = some a
            ∧ act.actionOutputMapper = some om
            ∧ h.runner.RunAction (NewHandlerContext ctx h.config) a
                (coercedInput toType act a tv) = (results, none)
            ∧ ((Handle toType h ctx td).results, (Handle toType h ctx td).err)
                = om.Apply (NewSimpleScope results))
      ∧ ((Handle toType h ctx td).err ≠ none →
          Event.applyOutputMapper ∉ (Handle toType h ctx td).trace →
          (Handle toType h ctx td).results = none) := by
  have key : (Handle toType h ctx td).results = none
      ∨ (Handle toType h ctx td).err = none
      ∨ ∃ tv act tr a om results,
          normalize td = .ok tv
            ∧ scanActs (NewSimpleScope tv) 0 h.acts = (.ok act, tr)
            ∧ act.act = some a
            ∧ act.actionOutputMapper = some om
            ∧ h.runner.RunAction (NewHandlerContext ctx h.config) a
                (coercedInput toType act a tv) = (results, none)
            ∧ ((Handle toType h ctx td).results, (Handle toType h ctx td).err)
                = om.Apply (NewSimpleScope results)
            ∧ Event.applyOutputMapper ∈ (Handle toType h ctx td).trace := by
    cases hn : normalize td with
    | error e =>
      have hH : Handle toType h ctx td = ⟨none, some e, [], none⟩ := by
        simp only [Handle, hn]
      rw [hH]
      exact Or.inl rfl
    | ok tv =>
      rcases hscan : scanActs (NewSimpleScope tv) 0 h.acts with ⟨e | act, tr⟩
      · rw [Handle_scan_error toType h ctx td tv e tr hn hscan]
        exact Or.inl rfl
      · cases hact : act.act with
        | none =>
          have hH : Handle toType h ctx td
              = ⟨none, some (errorsNew "no action to execute"), tr, tv⟩ := by
            simp only [Handle, hn, hscan, hact]
          rw [hH]
          exact Or.inl rfl
        | some a =>
          rcases Handle_selected_cases toType h ctx td tv act a tr hn hscan hact
            with hr | he | ⟨om, results, hout, hrun, hres, herr, hmem⟩
          · exact Or.inl hr
          · exact Or.inr (Or.inl he)
          · refine Or.inr (Or.inr ⟨tv, act, tr, a, om, results, rfl, hscan, hact, hout, hrun,
              ?_, hmem⟩)
            rw [hres, herr]
  constructor
  · intro herr hres
    rcases key with hr | he | ⟨tv, act, tr, a, om, results, h1, h2, h3, h4, h5, h6, _⟩
    · exact absurd hr hres
    · exact absurd he herr
    · exact ⟨tv, act, tr, a, om, results, h1, h2, h3, h4, h5, h6⟩
  · intro herr hnot
    rcases key with hr | he | ⟨_, _, _, _, _, _, _, _, _, _, _, _, hmem⟩
    · exact hr
    · exact absurd he herr
    · exact absurd hmem hnot

/-- Witness of C5: the action declares count of type int and the payload binds
count to the string 3 and the undeclared extra to a string; the Runner receives
count bound to the integer 3 and extra unchanged. -/
theorem handle_coercion_postcondition_witness :
    Event.runAction countAction (some [("count", .int 3), ("extra", .str "x")])
        ∈ (Handle sampleToType (echoHandler [binding countAction none]) (.base 0)
            (.mapValue (some [("count", .str "3"), ("extra", .str "x")]))).trace
      ∧ (coercedInput sampleToType (binding countAction none) countAction
            (some [("count", .str "3"), ("extra", .str "x")])).get "extra"
          = some (.str "x") := by
  have w := (handle_coercion_postcondition sampleToType (echoHandler [binding countAction none])
    (.base 0) (.mapValue (some [("count", .str "3"), ("extra", .str "x")]))
    (some [("count", .str "3"), ("extra", .str "x")]) (binding countAction none) countAction []
    rfl rfl rfl rfl).1 ⟨[("count", .int)]⟩ rfl (by decide)
    (by
      intro name t val hm hg
      simp only [List.mem_singleton, Prod.mk.injEq] at hm
      obtain ⟨rfl, rfl⟩ := hm
      have hv : val = .str "3" := by
        have h3 : (buildInput (binding countAction none)
            (some [("count", .str "3"), ("extra", .str "x")])).1.get "count"
            = some (.str "3") := by decide
        rw [h3] at hg
        exact (Option.some.inj hg).symm
      subst hv
      decide)
  exact ⟨w.1, w.2.2.2.2.1 "extra" (fun t ht => by simp at ht)⟩

/-- Counterexample to C6 as stated: the selected binding has no input mapper
and its action declares count of type int; the payload of the caller binds
count to the string 3 before the call and to the integer 3 once the coercion
step is over; the Runner of this handler returns its input and writes
nothing. -/
theorem handle_payload_mutated :
    (binding countAction none).actionInputMapper.isNone = true
      ∧ GoMap.get (some [("count", .str "3"), ("extra", .str "x")]) "count" = some (.str "3")
      ∧ (Handle sampleToType (echoHandler [binding countAction none]) (.base 0)
          (.mapValue (some [("count", .str "3"), ("extra", .str "x")]))).triggerValues.get "count"
          = some (.int 3)
      ∧ (Handle sampleToType (echoHandler [binding countAction none]) (.base 0)
          (.mapValue (some [("count", .str "3"), ("extra", .str "x")]))).err = none := by
  decide

/-- Witness of C6 (amended) on the same call: the undeclared key extra keeps its
value and the declared key count is bound to the coercion of its value. -/
theorem handle_payload_frame_witness :
    (Handle sampleToType (echoHandler [binding countAction none]) (.base 0)
        (.mapValue (some [("count", .str "3"), ("extra", .str "x")]))).triggerValues.get "extra"
        = some (.str "x")
      ∧ (Handle sampleToType (echoHandler [binding countAction none]) (.base 0)
        (.mapValue (some [("count", .str "3"), ("extra", .str "x")]))).triggerValues.get "count"
        = some (.int 3) := by
  have w := handle_payload_frame sampleToType (echoHandler [binding countAction none]) (.base 0)
    (some [("count", .str "3"), ("extra", .str "x")]) (binding countAction none) [] rfl rfl
  refine ⟨w.2.1 "extra" ?_, w.2.2.2.1 countAction ⟨[("count", .int)]⟩ rfl rfl (by decide) ?_
    "count" .int (by decide)⟩
  · intro a md t ha hmd
    cases ha
    cases hmd
    simp
  · intro name t val hm hg
    simp only [List.mem_singleton, Prod.mk.injEq] at hm
    obtain ⟨rfl, rfl⟩ := hm
    have h3 : GoMap.get (some [("count", .str "3"), ("extra", .str "x")]) "count"
        = some (.str "3") := by decide
    rw [h3] at hg
    cases hg
    decide

/-- Counterexample to C7 as stated: the action declares a and b of type int.  On
a payload where the coercion of a fails and on a payload where the coercion of b
fails, with the same unconvertible value, Handle returns the same error, which
is the error of coerce-to-type and names no field. -/
theorem handle_coercion_error_same_for_both_fields :
    (sampleToType (.str "x") .int).2 = some ⟨"unable to coerce x to int"⟩
      ∧ (sampleToType (.str "3") .int).2 = none
      ∧ (Handle sampleToType (echoHandler [binding twoFieldAction none]) (.base 0)
          (.mapValue (some [("a", .str "x"), ("b", .str "3")]))).err
          = some ⟨"unable to coerce x to int"⟩
      ∧ (Handle sampleToType (echoHandler [binding twoFieldAction none]) (.base 0)
          (.mapValue (some [("a", .str "3"), ("b", .str "x")]))).err
          = some ⟨"unable to coerce x to int"⟩ := by
  decide

/-- Witness of C7 (amended): the coercion of the declared field a fails. -/
theorem handle_coercion_failure_witness :
    (Handle sampleToType (echoHandler [binding twoFieldAction none]) (.base 0)
        (.mapValue (some [("a", .str "x"), ("b", .str "3")]))).results = none
      ∧ ∀ a1 input, Event.runAction a1 input
          ∉ (Handle sampleToType (echoHandler [binding twoFieldAction none]) (.base 0)
              (.mapValue (some [("a", .str "x"), ("b", .str "3")]))).trace := by
  have w := handle_coercion_failure sampleToType (echoHandler [binding twoFieldAction none])
    (.base 0) (.mapValue (some [("a", .str "x"), ("b", .str "3")]))
    (some [("a", .str "x"), ("b", .str "3")]) (binding twoFieldAction none) twoFieldAction []
    ⟨[("a", .int), ("b", .int)]⟩ rfl rfl rfl rfl rfl (by decide)
    ⟨"a", .int, .str "x", by decide, by decide, by decide⟩
  exact ⟨w.1, w.2.2⟩

/-- Witness of C8: the output mapper returns a nil map together with an error,
and Handle returns exactly that pair. -/
theorem handle_output_shaping_witness :
    ((Handle sampleToType (echoHandler [nilOutputBinding]) (.base 0) (.mapValue (some []))).results,
        (Handle sampleToType (echoHandler [nilOutputBinding]) (.base 0) (.mapValue (some []))).err)
      = (none, some ⟨"output mapping failed"⟩) :=
  (handle_output_shaping sampleToType (echoHandler [nilOutputBinding]) (.base 0)
    (.mapValue (some [])) (some []) nilOutputBinding (plainAction 5) (some []) (some []) []
    rfl rfl (by decide) rfl).2
    (constMapper none (some ⟨"output mapping failed"⟩)) rfl

/-- Witness of C9: the Runner fails and Handle returns its error. -/
theorem handle_runner_error_witness :
    (Handle sampleToType ⟨failRunner ⟨"action failed"⟩, none, [bothOutputBinding]⟩ (.base 0)
        (.val .nil)).results = none
      ∧ (Handle sampleToType ⟨failRunner ⟨"action failed"⟩, none, [bothOutputBinding]⟩ (.base 0)
        (.val .nil)).err = some ⟨"action failed"⟩
      ∧ Event.applyOutputMapper
          ∉ (Handle sampleToType ⟨failRunner ⟨"action failed"⟩, none, [bothOutputBinding]⟩
              (.base 0) (.val .nil)).trace :=
  handle_runner_error sampleToType ⟨failRunner ⟨"action failed"⟩, none, [bothOutputBinding]⟩
    (.base 0) (.val .nil) none bothOutputBinding (plainAction 4) none none ⟨"action failed"⟩ []
    rfl rfl (by decide) rfl

/-- Witness of C10: an output mapper that returns a map together with an error
is passed through, and a failing Runner gives a nil map. -/
theorem handle_no_partial_result_witness :
    (∃ tv act tr a om results,
        normalize (.val .nil) = .ok tv
          ∧ scanActs (NewSimpleScope tv) 0 (echoHandler [bothOutputBinding]).acts = (.ok act, tr)
          ∧ act.act = some a
          ∧ act.actionOutputMapper = some om
          ∧ (echoHandler [bothOutputBinding]).runner.RunAction
              (NewHandlerContext (.base 0) (echoHandler [bothOutputBinding]).config) a
              (coercedInput sampleToType act a tv) = (results, none)
          ∧ ((Handle sampleToType (echoHandler [bothOutputBinding]) (.base 0) (.val .nil)).results,
              (Handle sampleToType (echoHandler [bothOutputBinding]) (.base 0) (.val .nil)).err)
              = om.Apply (NewSimpleScope results))
      ∧ (Handle sampleToType ⟨failRunner ⟨"action failed"⟩, none, [bothOutputBinding]⟩ (.base 0)
          (.val .nil)).results = none :=
  ⟨(handle_no_partial_result sampleToType (echoHandler [bothOutputBinding]) (.base 0)
      (.val .nil)).1 (by decide) (by decide),
    (handle_no_partial_result sampleToType
      ⟨failRunner ⟨"action failed"⟩, none, [bothOutputBinding]⟩ (.base 0) (.val .nil)).2
      (by decide) (by decide)⟩


/-! ## Payload normalisation -/

/-- C11.  Unsupported payload: for a payload that is not nil, not a native map
with string keys and not a structured value, and for every handler, Handle
returns a nil result and the error whose message is "unsupported trigger data: "
followed by the rendering of the payload; it calls no collaborator, so no guard
is evaluated and the Runner is not invoked. -/
theorem handle_unsupported_payload (toType : ToType) (h : handlerImpl) (ctx : Context)
    (td : TriggerData)
    (hnil : td ≠ .val .nil) (hmap : ∀ m, td ≠ .mapValue m) (hstruct : ∀ m, td ≠ .structValue m) :
    ∃ v, td = .val v
      ∧ (Handle toType h ctx td).results = none
      ∧ (Handle toType h ctx td).err = some ⟨"unsupported trigger data: " ++ fmtV v⟩
      ∧ (Handle toType h ctx td).trace = [] := by
  cases td with
  | mapValue m => exact absurd rfl (hmap m)
  | structValue m => exact absurd rfl (hstruct m)
  | val v =>
    cases v with
    | nil => exact absurd rfl hnil
    | bool b => cases b <;> exact ⟨_, rfl, rfl, rfl, rfl⟩
    | int n => exact ⟨_, rfl, rfl, rfl, rfl⟩
    | str s => exact ⟨_, rfl, rfl, rfl, rfl⟩

/-- Witness of C11: the integer 42. -/
theorem handle_unsupported_payload_witness :
    ∃ v, TriggerData.val (.int 42) = .val v
      ∧ (Handle sampleToType (echoHandler [defaultBinding]) (.base 0) (.val (.int 42))).results
          = none
      ∧ (Handle sampleToType (echoHandler [defaultBinding]) (.base 0) (.val (.int 42))).err
          = some ⟨"unsupported trigger data: " ++ fmtV v⟩
      ∧ (Handle sampleToType (echoHandler [defaultBinding]) (.base 0) (.val (.int 42))).trace
          = [] :=
  handle_unsupported_payload sampleToType (echoHandler [defaultBinding]) (.base 0)
    (.val (.int 42)) (by decide) (fun _ hc => TriggerData.noConfusion hc)
    (fun _ hc => TriggerData.noConfusion hc)

/-- The coercion loop on a nil map makes no coercion and returns no error. -/
theorem coerceInputs_nil_map (toType : ToType) (fields : List (String × DataType)) :
    coerceInputs toType fields none = (none, none, []) := by
  induction fields with
  | nil => rfl
  | cons f rest ih =>
    obtain ⟨name, tv⟩ := f
    simp [coerceInputs, GoMap.get, ih]

theorem coercePass_nil_map (toType : ToType) (a : Action) :
    coercePass toType a none = (none, none, []) := by
  unfold coercePass
  cases a.ioMetadata with
  | none => rfl
  | some md => exact coerceInputs_nil_map toType md.Input


/-- C12.  Nil payload: the normalisation of a nil payload succeeds with the nil
map, so Handle does not take the return of line 107 and behaves as on a nil
native map.  Every guard is evaluated on the scope with no values, and every
error Handle returns comes from the scan, from the missing action, from the
input mapper, from the coercion pass or from the runner call and the shaping of
its result.  When the scan selects a binding with a non-nil action handle and no
input mapper, then whatever fields the action declares the coercion pass makes
no coercion and no write and returns no error, and the Runner is invoked, once,
with the selected action and the nil input mapping, which has no entries. -/
theorem handle_nil_payload (toType : ToType) (h : handlerImpl) (ctx : Context) :
    normalize (.val .nil) = .ok none
      ∧ Handle toType h ctx (.val .nil) = Handle toType h ctx (.mapValue none)
      ∧ (∀ e tr, scanActs (NewSimpleScope none) 0 h.acts = (.error e, tr) →
          Handle toType h ctx (.val .nil) = ⟨none, some e, tr, none⟩)
      ∧ (∀ e, (Handle toType h ctx (.val .nil)).err = some e →
          (∃ tr, scanActs (NewSimpleScope none) 0 h.acts = (.error e, tr))
            ∨ (∃ act tr, scanActs (NewSimpleScope none) 0 h.acts = (.ok act, tr)
                ∧ act.act = none ∧ e = errorsNew "no action to execute")
            ∨ (∃ act tr a, scanActs (NewSimpleScope none) 0 h.acts = (.ok act, tr)
                ∧ act.act = some a
                ∧ ((buildInput act none).2.1 = some e
                  ∨ (coercePass toType a (buildInput act none).1).2.1 = some e
                  ∨ (runAndShape h ctx act a (coercedInput toType act a none)).2.1 = some e)))
      ∧ (∀ act tr a, scanActs (NewSimpleScope none) 0 h.acts = (.ok act, tr) →
          act.act = some a → act.actionInputMapper = none →
          coercePass toType a none = (none, none, [])
            ∧ (∀ name, Event.coerce name ∉ (Handle toType h ctx (.val .nil)).trace)
            ∧ Event.runAction a none ∈ (Handle toType h ctx (.val .nil)).trace
            ∧ (∀ a1 input, Event.runAction a1 input ∈ (Handle toType h ctx (.val .nil)).trace →
                a1 = a ∧ input = none)
            ∧ (Handle toType h ctx (.val .nil)).triggerValues = none) := by
  have hn : normalize (.val .nil) = .ok none := rfl
  refine ⟨rfl, rfl, ?_, ?_, ?_⟩
  · intro e tr hscan
    exact Handle_scan_error toType h ctx _ none e tr hn hscan
  · intro e herr
    rcases hscan : scanActs (NewSimpleScope none) 0 h.acts with ⟨e0 | act, tr⟩
    · rw [Handle_scan_error toType h ctx _ none e0 tr hn hscan] at herr
      cases herr
      exact Or.inl ⟨tr, rfl⟩
    · cases hact : act.act with
      | none =>
        have hH : Handle toType h ctx (.val .nil)
            = ⟨none, some (errorsNew "no action to execute"), tr, none⟩ := by
          simp only [Handle, hn, hscan, hact]
        rw [hH] at herr
        cases herr
        exact Or.inr (Or.inl ⟨act, tr, rfl, hact, rfl⟩)
      | some a =>
        refine Or.inr (Or.inr ⟨act, tr, a, rfl, hact, ?_⟩)
        cases hin : (buildInput act none).2.1 with
        | some e1 =>
          have hH := Handle_selected toType h ctx _ none act a tr hn hscan hact
          simp only [hin] at hH
          rw [hH] at herr
          exact Or.inl herr
        | none =>
          cases hco : (coercePass toType a (buildInput act none).1).2.1 with
          | some e2 =>
            have hH := Handle_selected toType h ctx _ none act a tr hn hscan hact
            simp only [hin, hco] at hH
            rw [hH] at herr
            exact Or.inr (Or.inl herr)
          | none =>
            obtain ⟨_, he, _⟩ := Handle_reached toType h ctx _ none act a tr hn hscan hact hin hco
            rw [he] at herr
            exact Or.inr (Or.inr herr)
  · intro act tr a hscan hact hmap
    have hbi : buildInput act none = (none, none, []) := by simp [buildInput, hmap]
    have hcp := coercePass_nil_map toType a
    have hci : coercedInput toType act a none = none := by
      simp [coercedInput, hbi, hcp]
    have hin : (buildInput act none).2.1 = none := by rw [hbi]
    have hco : (coercePass toType a (buildInput act none).1).2.1 = none := by rw [hbi, hcp]
    obtain ⟨_, _, htrace⟩ := Handle_reached toType h ctx _ none act a tr hn hscan hact hin hco
    have hcalls := Handle_runner_calls toType h ctx _ none act a tr hn hscan hact
    have hrun := (Handle_selected_events toType h ctx _ none act a tr hn hscan hact).2.1 hin hco
    have htr : ∀ e ∈ tr, ∃ j, e = Event.evalGuard j := by
      have := scanActs_trace (NewSimpleScope none) h.acts 0
      rw [hscan] at this
      exact this
    rw [hci] at hrun hcalls
    refine ⟨hcp, ?_, hrun, hcalls, ?_⟩
    · intro name hmem
      rw [htrace, hbi, hcp] at hmem
      simp only [List.append_nil, List.mem_append] at hmem
      rcases hmem with hm | hm
      · obtain ⟨j, hj⟩ := htr _ hm
        cases hj
      · rcases runAndShape_trace h ctx act a (coercedInput toType act a none) with hr | hr
        · rw [hr] at hm
          simp at hm
        · rw [hr] at hm
          simp at hm
    · rw [Handle_triggerValues_passthrough toType h ctx _ none act a tr hn hscan hact hmap, hcp]

/-- Witness of C12: an unguarded binding with no input mapper whose action
declares the field count, on a nil payload. -/
theorem handle_nil_payload_witness :
    Event.runAction countAction none
        ∈ (Handle sampleToType (echoHandler [binding countAction none]) (.base 0)
            (.val .nil)).trace
      ∧ (∀ name, Event.coerce name
          ∉ (Handle sampleToType (echoHandler [binding countAction none]) (.base 0)
              (.val .nil)).trace) := by
  have w := (handle_nil_payload sampleToType (echoHandler [binding countAction none])
    (.base 0)).2.2.2.2 (binding countAction none) [] countAction rfl rfl rfl
  exact ⟨w.2.2.1, w.2.1⟩


/-! ## Settings lookup -/

/-- C13.  Settings fallback: for a handler with a configuration and a parent
configuration and every setting name x, GetSetting returns, without panic, the
own value and true when x is a key of the own settings, otherwise the value of
the parent and true when x is a key of the settings of the parent, otherwise
nil and false; it returns true only for a name that is a key of one of the two
maps; a handler with a nil configuration returns nil and false. -/
theorem getSetting_fallback (h : handlerImpl) (config : HandlerConfig) (parent : Config)
    (x : String)
    (hconfig : h.config = some config) (hparent : config.parent = some parent) :
    (∀ v, config.Settings.get x = some v → GetSetting h x = some (v, true))
      ∧ (∀ p, config.Settings.get x = none → parent.Settings.get x = some p →
          GetSetting h x = some (p, true))
      ∧ (config.Settings.get x = none → parent.Settings.get x = none →
          GetSetting h x = some (.nil, false))
      ∧ (∀ v, GetSetting h x = some (v, true) →
          (config.Settings.get x).isSome = true ∨ (parent.Settings.get x).isSome = true)
      ∧ (∀ h0 : handlerImpl, h0.config = none → GetSetting h0 x = some (.nil, false)) := by
  refine ⟨?_, ?_, ?_, ?_, ?_⟩
  · intro v hv
    simp [GetSetting, hconfig, hv]
  · intro p hown hp
    simp [GetSetting, hconfig, hown, hparent, hp]
  · intro hown hp
    simp [GetSetting, hconfig, hown, hparent, hp]
  · intro v hget
    cases hown : config.Settings.get x with
    | some w => exact Or.inl rfl
    | none =>
      cases hp : parent.Settings.get x with
      | some p => exact Or.inr rfl
      | none =>
        simp [GetSetting, hconfig, hown, hparent, hp] at hget
  · intro h0 h0c
    simp [GetSetting, h0c]

/-- Witness of C13: port is set by the handler, host by the parent only, and
path by neither. -/
theorem getSetting_fallback_witness :
    GetSetting ⟨echoRunner, some sampleConfig, []⟩ "port" = some (.int 8080, true)
      ∧ GetSetting ⟨echoRunner, some sampleConfig, []⟩ "host" = some (.str "localhost", true)
      ∧ GetSetting ⟨echoRunner, some sampleConfig, []⟩ "path" = some (.nil, false) :=
  ⟨(getSetting_fallback ⟨echoRunner, some sampleConfig, []⟩ sampleConfig
      ⟨some [("port", .int 80), ("host", .str "localhost")]⟩ "port" rfl rfl).1 (.int 8080)
      (by decide),
    (getSetting_fallback ⟨echoRunner, some sampleConfig, []⟩ sampleConfig
      ⟨some [("port", .int 80), ("host", .str "localhost")]⟩ "host" rfl rfl).2.1
      (.str "localhost") (by decide) (by decide),
    (getSetting_fallback ⟨echoRunner, some sampleConfig, []⟩ sampleConfig
      ⟨some [("port", .int 80), ("host", .str "localhost")]⟩ "path" rfl rfl).2.2.1
      (by decide) (by decide)⟩

end trigger

namespace ast

open trigger

/-! ## Evaluation of the ternary node -/

/-- The outcome of Eval on a ternary whose condition evaluates to a value that
coerces to true: that of the then child, with a nil value on an error. -/
theorem Eval_ternary_true (toBool : ToBool) (scope : Scope) (i t e : Expr) (iv : Value)
    (hif : (Eval toBool scope i).ret = some (iv, none)) (hb : toBool iv = (true, none)) :
    Eval toBool scope (.exprTernary i t e)
      = ⟨match (Eval toBool scope t).ret with
          | none => none
          | some (_, some err) => some (.nil, some err)
          | some (tv, none) => some (tv, none),
          (Eval toBool scope i).trace ++ (Eval toBool scope t).trace⟩ := by
  rw [Eval]
  simp only [hif, hb]
  rcases (Eval toBool scope t).ret with _ | ⟨tv, _ | err⟩ <;> rfl

/-- The outcome of Eval on a ternary whose condition evaluates to a value that
coerces to false: that of the else child, with a nil value on an error. -/
theorem Eval_ternary_false (toBool : ToBool) (scope : Scope) (i t e : Expr) (iv : Value)
    (hif : (Eval toBool scope i).ret = some (iv, none)) (hb : toBool iv = (false, none)) :
    Eval toBool scope (.exprTernary i t e)
      = ⟨match (Eval toBool scope e).ret with
          | none => none
          | some (_, some err) => some (.nil, some err)
          | some (ev, none) => some (ev, none),
          (Eval toBool scope i).trace ++ (Eval toBool scope e).trace⟩ := by
  rw [Eval]
  simp only [hif, hb]
  rcases (Eval toBool scope e).ret with _ | ⟨ev, _ | err⟩ <;> rfl

/-- C14.  Ternary branch selection: when the if child evaluates without error to
a value that coerces without error to the boolean b, Eval of the ternary returns
the outcome of the then child when b is true and of the else child when b is
false: its value with a nil error, or a nil value with its error; the calls made
are those of the if child followed by those of the selected child, and the
outcome is the same whatever the other child is, so that the other child is not
evaluated and none of its errors or effects surfaces. -/
theorem ternary_branch_selection (toBool : ToBool) (scope : Scope) (i t e : Expr)
    (iv : Value) (b : Bool)
    (hif : (Eval toBool scope i).ret = some (iv, none)) (hb : toBool iv = (b, none)) :
    (b = true →
        (∀ v, (Eval toBool scope t).ret = some (v, none) →
            (Eval toBool scope (.exprTernary i t e)).ret = some (v, none))
          ∧ (∀ v err, (Eval toBool scope t).ret = some (v, some err) →
              (Eval toBool scope (.exprTernary i t e)).ret = some (.nil, some err))
          ∧ ((Eval toBool scope t).ret = none →
              (Eval toBool scope (.exprTernary i t e)).ret = none)
          ∧ (Eval toBool scope (.exprTernary i t e)).trace
              = (Eval toBool scope i).trace ++ (Eval toBool scope t).trace
          ∧ ∀ e1, Eval toBool scope (.exprTernary i t e1)
              = Eval toBool scope (.exprTernary i t e))
      ∧ (b = false →
        (∀ v, (Eval toBool scope e).ret = some (v, none) →
            (Eval toBool scope (.exprTernary i t e)).ret = some (v, none))
          ∧ (∀ v err, (Eval toBool scope e).ret = some (v, some err) →
              (Eval toBool scope (.exprTernary i t e)).ret = some (.nil, some err))
          ∧ ((Eval toBool scope e).ret = none →
              (Eval toBool scope (.exprTernary i t e)).ret = none)
          ∧ (Eval toBool scope (.exprTernary i t e)).trace
              = (Eval toBool scope i).trace ++ (Eval toBool scope e).trace
          ∧ ∀ t1, Eval toBool scope (.exprTernary i t1 e)
              = Eval toBool scope (.exprTernary i t e)) := by
  constructor
  · intro hbt
    subst hbt
    have hE := fun e1 => Eval_ternary_true toBool scope i t e1 iv hif hb
    refine ⟨?_, ?_, ?_, ?_, ?_⟩
    · intro v hv
      rw [hE e, hv]
    · intro v err hv
      rw [hE e, hv]
    · intro hv
      rw [hE e, hv]
    · rw [hE e]
    · intro e1
      rw [hE e1, hE e]
  · intro hbf
    subst hbf
    have hE := fun t1 => Eval_ternary_false toBool scope i t1 e iv hif hb
    refine ⟨?_, ?_, ?_, ?_, ?_⟩
    · intro v hv
      rw [hE t, hv]
    · intro v err hv
      rw [hE t, hv]
    · intro hv
      rw [hE t, hv]
    · rw [hE t]
    · intro t1
      rw [hE t1, hE t]

/-- C15.  Ternary condition failure: when Eval of the if child returns an error
e, or returns a value without error whose coercion to boolean fails with the
error e, Eval of the ternary returns a nil value and e itself; the calls made
are those of the if child only and the outcome is the same whatever the then and
else children are, so that neither is evaluated. -/
theorem ternary_condition_failure (toBool : ToBool) (scope : Scope) (i t e : Expr)
    (err : GoError)
    (hfail : (∃ v, (Eval toBool scope i).ret = some (v, some err))
      ∨ (∃ iv b, (Eval toBool scope i).ret = some (iv, none) ∧ toBool iv = (b, some err))) :
    (Eval toBool scope (.exprTernary i t e)).ret = some (.nil, some err)
      ∧ (Eval toBool scope (.exprTernary i t e)).trace = (Eval toBool scope i).trace
      ∧ ∀ t1 e1, Eval toBool scope (.exprTernary i t1 e1)
          = Eval toBool scope (.exprTernary i t e) := by
  have hE : ∀ t1 e1, Eval toBool scope (.exprTernary i t1 e1)
      = ⟨some (.nil, some err), (Eval toBool scope i).trace⟩ := by
    intro t1 e1
    rcases hfail with ⟨v, hv⟩ | ⟨iv, b, hiv, hb⟩
    · rw [Eval]
      simp only [hv]
    · rw [Eval]
      simp only [hiv, hb]
  refine ⟨?_, ?_, ?_⟩
  · rw [hE t e]
  · rw [hE t e]
  · intro t1 e1
    rw [hE t1 e1, hE t e]


/-- Witness of C14: the condition is true, the then child evaluates to 1 and the
else child would fail; the ternary evaluates to 1. -/
theorem ternary_branch_selection_witness :
    (Eval sampleToBool (NewSimpleScope none)
        (.exprTernary (constNode 0 (.bool true)) (constNode 1 (.int 1))
          (errNode 2 ⟨"else evaluated"⟩))).ret = some (.int 1, none)
      ∧ (Eval sampleToBool (NewSimpleScope none)
        (.exprTernary (constNode 0 (.bool true)) (constNode 1 (.int 1))
          (errNode 2 ⟨"else evaluated"⟩))).trace = [.evalOther 0, .evalOther 1] := by
  have w := (ternary_branch_selection sampleToBool (NewSimpleScope none)
    (constNode 0 (.bool true)) (constNode 1 (.int 1)) (errNode 2 ⟨"else evaluated"⟩)
    (.bool true) true rfl rfl).1 rfl
  exact ⟨w.1 (.int 1) rfl, w.2.2.2.1⟩

/-- Witness of C15: the condition evaluates to a string that does not coerce to
a boolean. -/
theorem ternary_condition_failure_witness :
    (Eval sampleToBool (NewSimpleScope none)
        (.exprTernary (constNode 0 (.str "maybe")) (constNode 1 (.int 1))
          (constNode 2 (.int 2)))).ret
        = some (.nil, some ⟨"unable to coerce maybe to bool"⟩)
      ∧ (Eval sampleToBool (NewSimpleScope none)
        (.exprTernary (constNode 0 (.str "maybe")) (constNode 1 (.int 1))
          (constNode 2 (.int 2)))).trace = [.evalOther 0] := by
  have w := ternary_condition_failure sampleToBool (NewSimpleScope none)
    (constNode 0 (.str "maybe")) (constNode 1 (.int 1)) (constNode 2 (.int 2))
    ⟨"unable to coerce maybe to bool"⟩ (Or.inr ⟨.str "maybe", false, rfl, by decide⟩)
  exact ⟨w.1, w.2.1⟩

/-! ## The reference node -/

/-- Eval assigns to no field: the node after any sequence of Eval calls is the
node before. -/
theorem nodeAfterAll_eval (e : Expr) (scopes : List Scope) :
    nodeAfterAll e (scopes.map NodeCall.eval) = e := by
  induction scopes with
  | nil => rfl
  | cons s rest ih =>
    simp only [nodeAfterAll, List.map_cons, List.foldl_cons, nodeAfter] at ih ⊢
    exact ih

/-- C16.  Reference evaluation: when the resolver binds the reference string of
a reference node to the Resolution r, Init succeeds and afterwards, for every
scope s, Eval returns exactly r.GetValue(s); so evaluating the node on any
sequence of scopes, in any order and with repetitions, gives for each scope the
value r.GetValue gives for it, and the Eval calls leave the node unchanged. -/
theorem ref_eval_delegates (toBool : ToBool) (resolver : CompositeResolver) (root : Bool)
    (ref : String) (res0 : Option Resolution) (r : Resolution)
    (hbind : resolver.GetResolution ref = (some r, none)) :
    (Init resolver root (.exprRef ref res0)).err = none
      ∧ (∀ s, (Eval toBool s (Init resolver root (.exprRef ref res0)).node).ret
          = some (r.GetValue s))
      ∧ (∀ scopes : List Scope,
          scopes.map (fun s => (Eval toBool s (Init resolver root (.exprRef ref res0)).node).ret)
            = scopes.map (fun s => some (r.GetValue s)))
      ∧ (∀ scopes : List Scope,
          nodeAfterAll (Init resolver root (.exprRef ref res0)).node (scopes.map NodeCall.eval)
            = (Init resolver root (.exprRef ref res0)).node) := by
  have hI : Init resolver root (.exprRef ref res0)
      = ⟨.exprRef ref (some r), none, [.getResolution ref root]⟩ := by
    simp [Init, hbind]
  rw [hI]
  refine ⟨rfl, fun s => rfl, fun scopes => rfl, fun scopes => nodeAfterAll_eval _ scopes⟩

/-- Witness of C16: the same resolved node on two scopes that bind the key name
to different values. -/
theorem ref_eval_delegates_witness :
    [NewSimpleScope (some [("name", .str "a")]), NewSimpleScope (some [("name", .str "b")]),
        NewSimpleScope (some [("name", .str "a")])].map
        (fun s => (Eval sampleToBool s (Init sampleResolver true (.exprRef "$.name" none)).node).ret)
      = [some (.str "a", none), some (.str "b", none), some (.str "a", none)] :=
  (ref_eval_delegates sampleToBool sampleResolver true "$.name" none (keyResolution "name")
    rfl).2.2.1
    [NewSimpleScope (some [("name", .str "a")]), NewSimpleScope (some [("name", .str "b")]),
      NewSimpleScope (some [("name", .str "a")])]


/-- Init of a reference node keeps the reference string. -/
theorem Init_exprRef_keeps_ref (resolver : CompositeResolver) (root : Bool) (ref : String)
    (res : Option Resolution) :
    ∃ res1, (Init resolver root (.exprRef ref res)).node = .exprRef ref res1 := by
  rcases hres : resolver.GetResolution ref with ⟨r, _ | err⟩
  · exact ⟨r, by simp [Init, hres]⟩
  · exact ⟨res, by simp [Init, hres]⟩

/-- Counterexample to C17 as stated: after a successful Init the reference node
holds the Resolution and still holds the raw reference string, which is not
discarded. -/
theorem ref_node_holds_both_after_init :
    (Init sampleResolver true (.exprRef "$.name" none)).err = none
      ∧ holdsRawString (Init sampleResolver true (.exprRef "$.name" none)).node = true
      ∧ holdsResolution (Init sampleResolver true (.exprRef "$.name" none)).node = true
      ∧ refsOf (Init sampleResolver true (.exprRef "$.name" none)).node = ["$.name"] := by
  decide

/-- A reference node keeps its reference string through any sequence of
calls. -/
theorem nodeAfterAll_exprRef_keeps_ref (ref : String) (res : Option Resolution)
    (calls : List NodeCall) :
    ∃ res1, nodeAfterAll (.exprRef ref res) calls = .exprRef ref res1 := by
  induction calls generalizing res with
  | nil => exact ⟨res, rfl⟩
  | cons c rest ih =>
    cases c with
    | eval s => exact ih res
    | init rs rt =>
      obtain ⟨res1, h1⟩ := Init_exprRef_keeps_ref rs rt ref res
      obtain ⟨res2, h2⟩ := ih res1
      refine ⟨res2, ?_⟩
      simp only [nodeAfterAll, List.foldl_cons, nodeAfter] at h2 ⊢
      rw [h1]
      exact h2

/-- C17 (amended).  Reference node state: (1) NewRefExpr builds a node that
holds the trimmed reference string and no Resolution; (2) a failed Init returns
the error of the resolver and leaves the node unchanged; (3) a successful Init
sets the Resolution to the one the resolver returned and keeps the reference
string unchanged; (4) so a node with a non-empty reference string that the
resolver binds to a non-nil Resolution holds both the string and the Resolution
after Init; (5) after any sequence of Init calls, failed or successful, the node
still holds the reference string it had before them; (6) the pair Eval returns
depends on the Resolution only, not on the reference string. -/
theorem ref_node_lifecycle (Concat : List Attrib → Except GoError String)
    (refNode : List Attrib) (resolver : CompositeResolver) (root : Bool) (ref : String)
    (res : Option Resolution) :
    (∀ lit, Concat refNode = .ok lit →
        NewRefExpr Concat refNode = (some (.exprRef (TrimSpace lit) none), none))
      ∧ (∀ r err, resolver.GetResolution ref = (r, some err) →
          (Init resolver root (.exprRef ref res)).node = .exprRef ref res
            ∧ (Init resolver root (.exprRef ref res)).err = some err)
      ∧ (∀ r, resolver.GetResolution ref = (r, none) →
          (Init resolver root (.exprRef ref res)).node = .exprRef ref r
            ∧ (Init resolver root (.exprRef ref res)).err = none)
      ∧ (∀ r, resolver.GetResolution ref = (some r, none) → ref ≠ "" →
          holdsRawString (Init resolver root (.exprRef ref res)).node = true
            ∧ holdsResolution (Init resolver root (.exprRef ref res)).node = true)
      ∧ (∀ inits : List (CompositeResolver × Bool),
          ∃ res1, nodeAfterAll (.exprRef ref res) (inits.map (fun p => NodeCall.init p.1 p.2))
            = .exprRef ref res1)
      ∧ (∀ (toBool : ToBool) (s : Scope) (ref2 : String),
          (Eval toBool s (.exprRef ref2 res)).ret = (Eval toBool s (.exprRef ref res)).ret) := by
  refine ⟨?_, ?_, ?_, ?_, ?_, ?_⟩
  · intro lit hlit
    simp [NewRefExpr, hlit]
  · intro r err hres
    simp [Init, hres]
  · intro r hres
    simp [Init, hres]
  · intro r hres hne
    simp [Init, hres, holdsRawString, holdsResolution, hne]
  · intro inits
    exact nodeAfterAll_exprRef_keeps_ref ref res _
  · intro toBool s ref2
    cases res <;> rfl

/-- Witness of C17 (amended): a failed Init leaves the node unchanged and
returns the error of the resolver; a successful Init of a node with a non-empty
reference string leaves it holding both the string and the Resolution. -/
theorem ref_node_lifecycle_witness :
    ((Init sampleResolver true (.exprRef "name" none)).node = .exprRef "name" none
        ∧ (Init sampleResolver true (.exprRef "name" none)).err
            = some ⟨"unable to resolve name"⟩)
      ∧ (holdsRawString (Init sampleResolver false (.exprRef "$.name" none)).node = true
        ∧ holdsResolution (Init sampleResolver false (.exprRef "$.name" none)).node = true) :=
  ⟨(ref_node_lifecycle (fun _ => .ok " name ") [] sampleResolver true "name" none).2.1
      none ⟨"unable to resolve name"⟩ rfl,
    (ref_node_lifecycle (fun _ => .ok " $.name ") [] sampleResolver false "$.name" none).2.2.2.1
      (keyResolution "name") rfl (by decide)⟩

/-! ## Init over a tree -/

theorem submitUntilFailure_append_of_error (resolver : CompositeResolver)
    (l1 l2 : List String) (err : GoError)
    (h1 : (submitUntilFailure resolver l1).2 = some err) :
    submitUntilFailure resolver (l1 ++ l2) = submitUntilFailure resolver l1 := by
  induction l1 with
  | nil => simp [submitUntilFailure] at h1
  | cons ref rest ih =>
    show submitUntilFailure resolver (ref :: (rest ++ l2)) = _
    cases hr : (resolver.GetResolution ref).2 with
    | some e => simp [submitUntilFailure, hr]
    | none =>
      simp only [submitUntilFailure, hr] at h1
      simp only [submitUntilFailure, hr, ih h1]

theorem submitUntilFailure_append_of_ok (resolver : CompositeResolver)
    (l1 l2 : List String)
    (h1 : (submitUntilFailure resolver l1).2 = none) :
    submitUntilFailure resolver (l1 ++ l2)
      = ((submitUntilFailure resolver l1).1 ++ (submitUntilFailure resolver l2).1,
          (submitUntilFailure resolver l2).2) := by
  induction l1 with
  | nil => simp [submitUntilFailure]
  | cons ref rest ih =>
    show submitUntilFailure resolver (ref :: (rest ++ l2)) = _
    cases hr : (resolver.GetResolution ref).2 with
    | some e => simp [submitUntilFailure, hr] at h1
    | none =>
      simp only [submitUntilFailure, hr] at h1
      simp only [submitUntilFailure, hr, ih h1, List.cons_append]

theorem submitUntilFailure_ok_iff (resolver : CompositeResolver) (l : List String) :
    (submitUntilFailure resolver l).2 = none
      ↔ ∀ ref ∈ l, (resolver.GetResolution ref).2 = none := by
  induction l with
  | nil => simp [submitUntilFailure]
  | cons ref rest ih =>
    cases hr : (resolver.GetResolution ref).2 with
    | some e => simp [submitUntilFailure, hr]
    | none => simp [submitUntilFailure, hr, ih]

/-- When the resolver binds every string, all are submitted. -/
theorem submitUntilFailure_all_bound (resolver : CompositeResolver) (l : List String)
    (hall : ∀ ref ∈ l, (resolver.GetResolution ref).2 = none) :
    submitUntilFailure resolver l = (l, none) := by
  induction l with
  | nil => rfl
  | cons ref rest ih =>
    have hr := hall ref (List.mem_cons_self _ _)
    have hrest := ih (fun r hm => hall r (List.mem_cons_of_mem _ hm))
    simp only [submitUntilFailure, hr, hrest]

/-- When the resolver binds the strings before ref and fails on ref, the
strings up to ref are submitted, none after it, and the error is that of
ref. -/
theorem submitUntilFailure_first_failure (resolver : CompositeResolver)
    (good tail : List String) (ref : String) (err : GoError)
    (hgood : ∀ r ∈ good, (resolver.GetResolution r).2 = none)
    (hbad : (resolver.GetResolution ref).2 = some err) :
    submitUntilFailure resolver (good ++ ref :: tail) = (good ++ [ref], some err) := by
  induction good with
  | nil => simp [submitUntilFailure, hbad]
  | cons g rest ih =>
    have hg := hgood g (List.mem_cons_self _ _)
    have hrest := ih (fun r hm => hgood r (List.mem_cons_of_mem _ hm))
    show submitUntilFailure resolver (g :: (rest ++ ref :: tail)) = _
    simp only [submitUntilFailure, hg, hrest, List.cons_append]

/-- Init on a tree of ternary and reference nodes refines the specification on
the list of its reference strings. -/
theorem Init_refines (resolver : CompositeResolver) (e : Expr) (root : Bool)
    (htree : refTernaryOnly e = true) :
    (Init resolver root e).err = (submitUntilFailure resolver (refsOf e)).2
      ∧ (Init resolver root e).trace
          = (submitUntilFailure resolver (refsOf e)).1.map
              (fun ref => Call.getResolution ref (submitFlag root e)) := by
  induction e generalizing root with
  | other impl => simp [refTernaryOnly] at htree
  | exprRef ref res =>
    rcases hres : resolver.GetResolution ref with ⟨r, _ | err⟩
    · simp [Init, refsOf, submitUntilFailure, submitFlag, hres]
    · simp [Init, refsOf, submitUntilFailure, submitFlag, hres]
  | exprTernary i t el ihi iht ihe =>
    simp only [refTernaryOnly, Bool.and_eq_true] at htree
    obtain ⟨⟨hi, ht⟩, hel⟩ := htree
    obtain ⟨hie, hit⟩ := ihi false hi
    obtain ⟨hte, htt⟩ := iht false ht
    obtain ⟨hee, het⟩ := ihe false hel
    have hflag : ∀ (c : Expr), submitFlag false c = false := by
      intro c
      cases c <;> rfl
    rw [hflag] at hit htt het
    simp only [refsOf, submitFlag]
    cases h1 : (Init resolver false i).err with
    | some err =>
      rw [hie] at h1
      have hI : (Init resolver root (.exprTernary i t el)).err = some err
          ∧ (Init resolver root (.exprTernary i t el)).trace = (Init resolver false i).trace := by
        rw [Init]
        simp [hie, h1]
      rw [hI.1, hI.2, List.append_assoc,
        submitUntilFailure_append_of_error resolver _ _ err h1, h1, hit]
      exact ⟨rfl, rfl⟩
    | none =>
      rw [hie] at h1
      cases h2 : (Init resolver false t).err with
      | some err =>
        rw [hte] at h2
        have hI : (Init resolver root (.exprTernary i t el)).err = some err
            ∧ (Init resolver root (.exprTernary i t el)).trace
                = (Init resolver false i).trace ++ (Init resolver false t).trace := by
          rw [Init]
          simp [hie, h1, hte, h2]
        rw [hI.1, hI.2, List.append_assoc,
          submitUntilFailure_append_of_ok resolver _ _ h1,
          submitUntilFailure_append_of_error resolver _ _ err h2, h2, hit, htt]
        simp
      | none =>
        rw [hte] at h2
        have hI : (Init resolver root (.exprTernary i t el)).err = (Init resolver false el).err
            ∧ (Init resolver root (.exprTernary i t el)).trace
                = (Init resolver false i).trace ++ (Init resolver false t).trace
                  ++ (Init resolver false el).trace := by
          rw [Init]
          simp [hie, h1, hte, h2]
        rw [hI.1, hI.2, List.append_assoc,
          submitUntilFailure_append_of_ok resolver _ _ h1,
          submitUntilFailure_append_of_ok resolver _ _ h2, hee, hit, htt, het]
        simp


/-- Init of a ternary initialises its children in the order if, then, else,
each with the root flag false: its calls are an initial segment of the calls of
the three children in that order, and all of them when it returns no error. -/
theorem Init_ternary_trace (resolver : CompositeResolver) (root : Bool) (i t el : Expr) :
    (Init resolver root (.exprTernary i t el)).trace
        <+: (Init resolver false i).trace ++ (Init resolver false t).trace
          ++ (Init resolver false el).trace
      ∧ ((Init resolver root (.exprTernary i t el)).err = none →
          (Init resolver root (.exprTernary i t el)).trace
            = (Init resolver false i).trace ++ (Init resolver false t).trace
              ++ (Init resolver false el).trace) := by
  rw [Init]
  cases h1 : (Init resolver false i).err with
  | some err =>
    simp only [List.append_assoc]
    exact ⟨List.prefix_append _ _, fun hc => by cases hc⟩
  | none =>
    cases h2 : (Init resolver false t).err with
    | some err =>
      simp only
      exact ⟨List.prefix_append _ _, fun hc => by cases hc⟩
    | none =>
      simp only
      exact ⟨List.prefix_refl _, fun _ => trivial⟩

/-- C18.  Init over a tree of ternary and reference nodes: Init succeeds exactly
when the resolver binds the reference string of every reference node of the
tree; when it does, every reference string is submitted to the resolver once, in
the order if, then, else; when the resolver binds the strings before some
reference and fails on it, Init returns the error of the resolver for that
reference unchanged and submits the strings up to it and none after it; the
children of a ternary are initialised in the order if, then, else, each with the
root flag false. -/
theorem init_tree (resolver : CompositeResolver) (e : Expr) (root : Bool)
    (htree : refTernaryOnly e = true) :
    ((Init resolver root e).err = none
        ↔ ∀ ref ∈ refsOf e, (resolver.GetResolution ref).2 = none)
      ∧ ((∀ ref ∈ refsOf e, (resolver.GetResolution ref).2 = none) →
          (Init resolver root e).trace
            = (refsOf e).map (fun ref => Call.getResolution ref (submitFlag root e)))
      ∧ (∀ good ref tail err, refsOf e = good ++ ref :: tail →
          (∀ r ∈ good, (resolver.GetResolution r).2 = none) →
          (resolver.GetResolution ref).2 = some err →
          (Init resolver root e).err = some err
            ∧ (Init resolver root e).trace
                = (good ++ [ref]).map (fun ref => Call.getResolution ref (submitFlag root e)))
      ∧ (∀ i t el, e = .exprTernary i t el →
          refsOf e = refsOf i ++ refsOf t ++ refsOf el
            ∧ submitFlag root e = false
            ∧ (Init resolver root e).trace
                <+: (Init resolver false i).trace ++ (Init resolver false t).trace
                  ++ (Init resolver false el).trace
            ∧ ((Init resolver root e).err = none →
                (Init resolver root e).trace
                  = (Init resolver false i).trace ++ (Init resolver false t).trace
                    ++ (Init resolver false el).trace)) := by
  obtain ⟨herr, htrace⟩ := Init_refines resolver e root htree
  refine ⟨?_, ?_, ?_, ?_⟩
  · rw [herr]
    exact submitUntilFailure_ok_iff resolver (refsOf e)
  · intro hall
    rw [htrace, submitUntilFailure_all_bound resolver _ hall]
  · intro good ref tail err hrefs hgood hbad
    rw [herr, htrace, hrefs, submitUntilFailure_first_failure resolver good tail ref err hgood hbad]
    exact ⟨rfl, rfl⟩
  · intro i t el he
    subst he
    exact ⟨rfl, rfl, (Init_ternary_trace resolver root i t el).1,
      (Init_ternary_trace resolver root i t el).2⟩

/-- Witness of C18: the resolver binds the if reference and fails on the then
reference; the else reference is not submitted. -/
theorem init_tree_witness :
    (Init sampleResolver true
        (.exprTernary (.exprRef "$.a" none) (.exprRef "b" none) (.exprRef "$.c" none))).err
        = some ⟨"unable to resolve b"⟩
      ∧ (Init sampleResolver true
        (.exprTernary (.exprRef "$.a" none) (.exprRef "b" none) (.exprRef "$.c" none))).trace
        = [.getResolution "$.a" false, .getResolution "b" false] :=
  (init_tree sampleResolver
    (.exprTernary (.exprRef "$.a" none) (.exprRef "b" none) (.exprRef "$.c" none)) true
    rfl).2.2.1 ["$.a"] "b" ["$.c"] ⟨"unable to resolve b"⟩ rfl (by decide) rfl


/-! ## The list builders -/

/-- C19.  List builders: NewExprList succeeds exactly when its argument is an
expression, and then returns the sequence of that one expression; otherwise it
returns a nil list and a type error.  AppendToExprList succeeds exactly when its
first argument is a sequence of expressions and its second an expression, and
then returns the sequence extended by the expression at the end: its length is
one more, its first elements are those of the sequence in order and its last
element is the expression; otherwise it returns a nil list and a type error,
which is the error on the sequence when the first argument is not a sequence,
whatever the second is. -/
theorem expr_list_builders (list x : Attrib) :
    (∀ e, x = .expr e → NewExprList x = (some [e], none))
      ∧ ((∀ e, x ≠ .expr e) →
          NewExprList x
            = (none, some ⟨"invalid expression list expression type; expected ast.Expr, got "
                ++ x.typeName⟩))
      ∧ ((NewExprList x).2 = none ↔ ∃ e, x = .expr e)
      ∧ (∀ lst e, list = .exprList lst → x = .expr e →
          AppendToExprList list x = (some (lst ++ [e]), none)
            ∧ (lst ++ [e]).length = lst.length + 1
            ∧ (lst ++ [e]).take lst.length = lst
            ∧ (lst ++ [e]).getLast? = some e)
      ∧ ((∀ lst, list ≠ .exprList lst) →
          AppendToExprList list x
            = (none, some ⟨"invalid expression list type; expected []ast.Expr, got "
                ++ list.typeName⟩))
      ∧ (∀ lst, list = .exprList lst → (∀ e, x ≠ .expr e) →
          AppendToExprList list x
            = (none, some ⟨"invalid expression list expression type; expected ast.Expr, got "
                ++ x.typeName⟩))
      ∧ ((AppendToExprList list x).2 = none ↔ (∃ lst, list = .exprList lst) ∧ ∃ e, x = .expr e) := by
  refine ⟨?_, ?_, ?_, ?_, ?_, ?_, ?_⟩
  · intro e he
    subst he
    rfl
  · intro hx
    cases x with
    | expr e => exact absurd rfl (hx e)
    | exprList l => rfl
    | other n => rfl
  · cases x with
    | expr e => simp [NewExprList]
    | exprList l => simp [NewExprList]
    | other n => simp [NewExprList]
  · intro lst e hl hx
    subst hl
    subst hx
    refine ⟨rfl, by simp, by simp, by simp⟩
  · intro hl
    cases list with
    | exprList l => exact absurd rfl (hl l)
    | expr e => rfl
    | other n => rfl
  · intro lst hl hx
    subst hl
    cases x with
    | expr e => exact absurd rfl (hx e)
    | exprList l => rfl
    | other n => rfl
  · cases list with
    | exprList l =>
      cases x with
      | expr e => simp [AppendToExprList]
      | exprList l2 => simp [AppendToExprList]
      | other n => simp [AppendToExprList]
    | expr e => simp [AppendToExprList]
    | other n => simp [AppendToExprList]

/-- Witness of C19: appending to a sequence of one, and the precedence of the
error on the sequence when both arguments are invalid. -/
theorem expr_list_builders_witness :
    AppendToExprList (.exprList [constNode 0 (.int 1)]) (.expr (constNode 1 (.int 2)))
        = (some ([constNode 0 (.int 1)] ++ [constNode 1 (.int 2)]), none)
      ∧ AppendToExprList (.other "int") (.other "string")
        = (none, some ⟨"invalid expression list type; expected []ast.Expr, got "
            ++ (Attrib.other "int").typeName⟩) :=
  ⟨((expr_list_builders (.exprList [constNode 0 (.int 1)]) (.expr (constNode 1 (.int 2)))).2.2.2.1
      [constNode 0 (.int 1)] (constNode 1 (.int 2)) rfl rfl).1,
    (expr_list_builders (.other "int") (.other "string")).2.2.2.2.1
      (fun _ hc => Attrib.noConfusion hc)⟩

end ast

namespace trigger

/-! ## Handler construction -/

theorem compileCondition_events (ef : ExprFactory) (i : Nat) (ac : ActionConfig) :
    ∀ ev ∈ (compileCondition ef i ac).2.2, ev.index = i := by
  unfold compileCondition
  split
  · split <;> simp [BuildEvent.index]
  · simp

theorem compileMapper_events (mf : MapperFactory) (i : Nat) (m : GoMap) :
    ∀ ev ∈ (compileMapper mf i m).2.2, ev.index = i := by
  unfold compileMapper
  split <;> simp [BuildEvent.index]

/-- The factory calls of the body of the loop are calls for its own action. -/
theorem buildAct_events (mf : MapperFactory) (ef : ExprFactory) (i : Nat)
    (act : Option Action) (ac : ActionConfig) :
    ∀ ev ∈ (buildAct mf ef i act ac).2, ev.index = i := by
  have h1 := compileCondition_events ef i ac
  have h2 := compileMapper_events mf i ac.Input
  have h3 := compileMapper_events mf i ac.Output
  unfold buildAct
  rcases hc : compileCondition ef i ac with ⟨c, _ | e1, tr1⟩
  · rcases hi : compileMapper mf i ac.Input with ⟨im, _ | e2, tr2⟩
    · rcases ho : compileMapper mf i ac.Output with ⟨om, _ | e3, tr3⟩ <;>
      · rw [hc] at h1
        rw [hi] at h2
        rw [ho] at h3
        intro ev hev
        simp only [List.mem_append] at hev
        rcases hev with (h | h) | h
        · exact h1 ev h
        · exact h2 ev h
        · exact h3 ev h
    · rw [hc] at h1
      rw [hi] at h2
      intro ev hev
      simp only [List.mem_append] at hev
      rcases hev with h | h
      · exact h1 ev h
      · exact h2 ev h
  · rw [hc] at h1
    exact h1

/-- The body of the loop returns the first compilation error of the action, or
builds the binding the spec describes. -/
theorem buildAct_result (mf : MapperFactory) (ef : ExprFactory) (i : Nat)
    (act : Option Action) (ac : ActionConfig) :
    (∀ e, compileError mf ef ac = some e → (buildAct mf ef i act ac).1 = .error e)
      ∧ (compileError mf ef ac = none →
          (buildAct mf ef i act ac).1 = .ok (expectedBinding mf ef act ac)) := by
  unfold compileError buildAct compileCondition compileMapper expectedBinding
  by_cases hIf : ac.If = ""
  · by_cases hIn : ac.Input.len = 0
    · by_cases hOut : ac.Output.len = 0
      · simp [hIf, hIn, hOut]
      · cases ho : (mf.NewMapper ac.Output).2 <;> simp [hIf, hIn, hOut, ho]
    · cases hi : (mf.NewMapper ac.Input).2 with
      | some e2 => simp [hIf, hIn, hi]
      | none =>
        by_cases hOut : ac.Output.len = 0
        · simp [hIf, hIn, hi, hOut]
        · cases ho : (mf.NewMapper ac.Output).2 <;> simp [hIf, hIn, hi, hOut, ho]
  · cases hc : (ef.NewExpr ac.If).2 with
    | some e1 => simp [hIf, hc]
    | none =>
      by_cases hIn : ac.Input.len = 0
      · by_cases hOut : ac.Output.len = 0
        · simp [hIf, hc, hIn, hOut]
        · cases ho : (mf.NewMapper ac.Output).2 <;> simp [hIf, hc, hIn, hOut, ho]
      · cases hi : (mf.NewMapper ac.Input).2 with
        | some e2 => simp [hIf, hc, hIn, hi]
        | none =>
          by_cases hOut : ac.Output.len = 0
          · simp [hIf, hc, hIn, hi, hOut]
          · cases ho : (mf.NewMapper ac.Output).2 <;> simp [hIf, hc, hIn, hi, hOut, ho]


/-- The loop builds, for action handles whose configurations all compile, the
bindings the spec describes, one per action handle and in the same order, with
factory calls for these actions only. -/
theorem buildActs_ok (config : HandlerConfig) (mf : MapperFactory) (ef : ExprFactory)
    (acts : List (Option Action)) (i : Nat)
    (hall : ∀ j act, acts[j]? = some act →
      ∃ ac, config.Actions[i + j]? = some ac ∧ compileError mf ef ac = none) :
    ∃ bs tr, buildActs config mf ef i acts = some (.ok bs, tr)
      ∧ bs.length = acts.length
      ∧ (∀ j act, acts[j]? = some act →
          ∃ ac, config.Actions[i + j]? = some ac
            ∧ bs[j]? = some (expectedBinding mf ef act ac))
      ∧ ∀ ev ∈ tr, ev.index < i + acts.length := by
  induction acts generalizing i with
  | nil =>
    refine ⟨[], [], rfl, rfl, ?_, ?_⟩
    · intro j act hj
      simp at hj
    · intro ev hev
      simp at hev
  | cons act rest ih =>
    obtain ⟨ac, hac, hnone⟩ := hall 0 act (by simp)
    have hrest : ∀ j a, rest[j]? = some a →
        ∃ ac1, config.Actions[i + 1 + j]? = some ac1 ∧ compileError mf ef ac1 = none := by
      intro j a hj
      obtain ⟨ac1, h1, h2⟩ := hall (j + 1) a (by simpa using hj)
      exact ⟨ac1, by rw [← h1]; congr 1; omega, h2⟩
    obtain ⟨bs, tr2, hbs, hlen, hget, hev2⟩ := ih (i + 1) hrest
    have hres := (buildAct_result mf ef i act ac).2 hnone
    have hev1 := buildAct_events mf ef i act ac
    rcases hb : buildAct mf ef i act ac with ⟨r, tr1⟩
    rw [hb] at hres hev1
    simp only at hres
    subst hres
    refine ⟨expectedBinding mf ef act ac :: bs, tr1 ++ tr2, ?_, ?_, ?_, ?_⟩
    · rw [buildActs]
      simp only [Nat.add_zero] at hac
      simp only [hac, hb, hbs]
    · simp [hlen]
    · intro j a hj
      cases j with
      | zero =>
        simp only [List.getElem?_cons_zero, Option.some.injEq] at hj
        subst hj
        exact ⟨ac, hac, by simp⟩
      | succ j =>
        simp only [List.getElem?_cons_succ] at hj
        obtain ⟨ac1, h1, h2⟩ := hget j a hj
        exact ⟨ac1, by rw [← h1]; congr 1; omega, by simpa using h2⟩
    · intro ev hev
      simp only [List.mem_append] at hev
      rcases hev with h | h
      · have := hev1 ev h
        simp only [List.length_cons]
        omega
      · have := hev2 ev h
        simp only [List.length_cons]
        omega

/-- The loop returns the first compilation error: when the configurations of
the k actions from index i on compile and the next one fails with e, the loop
returns e with factory calls for no action after that one. -/
theorem buildActs_error (config : HandlerConfig) (mf : MapperFactory) (ef : ExprFactory)
    (k : Nat) (acts : List (Option Action)) (i : Nat) (ack : ActionConfig) (e : GoError)
    (hk : k < acts.length)
    (hpre : ∀ j, j < k → ∃ ac, config.Actions[i + j]? = some ac ∧ compileError mf ef ac = none)
    (hack : config.Actions[i + k]? = some ack)
    (hbad : compileError mf ef ack = some e) :
    ∃ tr, buildActs config mf ef i acts = some (.error e, tr)
      ∧ ∀ ev ∈ tr, ev.index ≤ i + k := by
  induction k generalizing i acts with
  | zero =>
    cases acts with
    | nil => simp at hk
    | cons act rest =>
      have hres := (buildAct_result mf ef i act ack).1 e hbad
      have hev1 := buildAct_events mf ef i act ack
      rcases hb : buildAct mf ef i act ack with ⟨r, tr1⟩
      rw [hb] at hres hev1
      simp only at hres
      subst hres
      refine ⟨tr1, ?_, ?_⟩
      · rw [buildActs]
        simp only [Nat.add_zero] at hack
        simp only [hack, hb]
      · intro ev hev
        have := hev1 ev hev
        omega
  | succ k ih =>
    cases acts with
    | nil => simp at hk
    | cons act rest =>
      obtain ⟨ac, hac, hnone⟩ := hpre 0 (by omega)
      have hres := (buildAct_result mf ef i act ac).2 hnone
      have hev1 := buildAct_events mf ef i act ac
      rcases hb : buildAct mf ef i act ac with ⟨r, tr1⟩
      rw [hb] at hres hev1
      simp only at hres
      subst hres
      have hk1 : k < rest.length := by simpa using hk
      have hpre1 : ∀ j, j < k →
          ∃ ac1, config.Actions[i + 1 + j]? = some ac1 ∧ compileError mf ef ac1 = none := by
        intro j hj
        obtain ⟨ac1, h1, h2⟩ := hpre (j + 1) (by omega)
        exact ⟨ac1, by rw [← h1]; congr 1; omega, h2⟩
      have hack1 : config.Actions[i + 1 + k]? = some ack := by
        rw [← hack]; congr 1; omega
      obtain ⟨tr2, hbs, hev2⟩ := ih rest (i + 1) hk1 hpre1 hack1
      refine ⟨tr1 ++ tr2, ?_, ?_⟩
      · rw [buildActs]
        simp only [Nat.add_zero] at hac
        simp only [hac, hb, hbs]
      · intro ev hev
        simp only [List.mem_append] at hev
        rcases hev with h | h
        · have := hev1 ev h
          omega
        · have := hev2 ev h
          omega


/-- The first compilation error of an action is the error the expression
factory returned for its guard string or the mapper factory returned for one of
its mapping declarations. -/
theorem compileError_some (mf : MapperFactory) (ef : ExprFactory) (ac : ActionConfig)
    (e : GoError) (he : compileError mf ef ac = some e) :
    (ac.If ≠ "" ∧ (ef.NewExpr ac.If).2 = some e)
      ∨ (ac.Input.len ≠ 0 ∧ (mf.NewMapper ac.Input).2 = some e)
      ∨ (ac.Output.len ≠ 0 ∧ (mf.NewMapper ac.Output).2 = some e) := by
  unfold compileError at he
  split at he
  · rename_i h1
    exact Or.inl ⟨h1.1, he⟩
  · split at he
    · rename_i h2
      exact Or.inr (Or.inl ⟨h2.1, he⟩)
    · split at he
      · rename_i h3
        exact Or.inr (Or.inr ⟨h3, he⟩)
      · cases he

/-- C20 (amended).  Binding construction: for a configuration with as many
actions as there are action handles, (1) when no compilation returns an error,
NewHandler returns without error a handler that carries the configuration and
has one binding per action handle, in the same order; binding j holds action
handle j; its guard is nil when guard string j is empty and is what the
expression factory returned for the string when it is not empty; its input and
output mappers are nil when declaration j is empty and are what the mapper
factory returned for the declaration when it is not empty; hence each is nil
exactly when its string or declaration is empty, provided the factory returns a
non-nil object for a string or declaration that is not empty; (2) when no
compilation for the actions before some action returns an error and e is the
first error a compilation of that action returns, in the order guard, input
mapper, output mapper, NewHandler returns no handler and e itself, with factory
calls for no later action. -/
theorem newHandler_bindings (config : HandlerConfig) (acts : List (Option Action))
    (mf : MapperFactory) (ef : ExprFactory) (runner : Runner)
    (hlen : config.Actions.length = acts.length) :
    ((∀ ac ∈ config.Actions, compileError mf ef ac = none) →
        ∃ r h, NewHandler config acts mf ef runner = some r
          ∧ r.err = none ∧ r.handler = some h
          ∧ h.config = some config
          ∧ h.acts.length = acts.length
          ∧ ∀ (j : Nat) (act : Option Action), acts[j]? = some act →
              ∃ (ac : ActionConfig) (b : actImpl),
                config.Actions[j]? = some ac ∧ h.acts[j]? = some b
                ∧ b.act = act
                ∧ b = expectedBinding mf ef act ac
                ∧ ((ac.If ≠ "" → (ef.NewExpr ac.If).1.isSome = true) →
                    (b.condition.isNone = true ↔ ac.If = ""))
                ∧ ((ac.Input.len ≠ 0 → (mf.NewMapper ac.Input).1.isSome = true) →
                    (b.actionInputMapper.isNone = true ↔ ac.Input.len = 0))
                ∧ ((ac.Output.len ≠ 0 → (mf.NewMapper ac.Output).1.isSome = true) →
                    (b.actionOutputMapper.isNone = true ↔ ac.Output.len = 0))
                ∧ (ac.If = "" → b.condition.isNone = true)
                ∧ (ac.If ≠ "" → b.condition = (ef.NewExpr ac.If).1)
                ∧ (ac.Input.len = 0 → b.actionInputMapper.isNone = true)
                ∧ (ac.Input.len ≠ 0 → b.actionInputMapper = (mf.NewMapper ac.Input).1)
                ∧ (ac.Output.len = 0 → b.actionOutputMapper.isNone = true)
                ∧ (ac.Output.len ≠ 0 → b.actionOutputMapper = (mf.NewMapper ac.Output).1))
      ∧ (∀ pre ack post e, config.Actions = pre ++ ack :: post →
          (∀ ac ∈ pre, compileError mf ef ac = none) →
          compileError mf ef ack = some e →
          (∃ r, NewHandler config acts mf ef runner = some r
            ∧ r.handler.isNone = true ∧ r.err = some e
            ∧ ∀ ev ∈ r.trace, ev.index ≤ pre.length)
          ∧ ((ack.If ≠ "" ∧ (ef.NewExpr ack.If).2 = some e)
            ∨ (ack.Input.len ≠ 0 ∧ (mf.NewMapper ack.Input).2 = some e)
            ∨ (ack.Output.len ≠ 0 ∧ (mf.NewMapper ack.Output).2 = some e))) := by
  constructor
  · intro hall
    have hall0 : ∀ j act, acts[j]? = some act →
        ∃ ac, config.Actions[0 + j]? = some ac ∧ compileError mf ef ac = none := by
      intro j act hj
      have hjlt : j < acts.length := by
        by_contra hge
        rw [List.getElem?_eq_none (by omega)] at hj
        cases hj
      have hjc : j < config.Actions.length := by omega
      refine ⟨config.Actions[j], ?_, hall _ (List.getElem_mem _)⟩
      rw [Nat.zero_add, List.getElem?_eq_getElem hjc]
    obtain ⟨bs, tr, hbs, hl, hget, _⟩ := buildActs_ok config mf ef acts 0 hall0
    refine ⟨⟨some ⟨runner, some config, bs⟩, none, tr⟩, ⟨runner, some config, bs⟩, ?_, rfl, rfl,
      rfl, hl, ?_⟩
    · simp only [NewHandler, hbs]
    · intro j act hj
      obtain ⟨ac, hac, hb⟩ := hget j act hj
      rw [Nat.zero_add] at hac
      refine ⟨ac, expectedBinding mf ef act ac, hac, hb, rfl, rfl, ?_, ?_, ?_, ?_, ?_, ?_, ?_,
        ?_, ?_⟩
      · intro hnn
        by_cases hIf : ac.If = ""
        · simp [expectedBinding, hIf]
        · have := hnn hIf
          simp [expectedBinding, hIf, Option.isSome_iff_ne_none.1 this]
      · intro hnn
        by_cases hIn : ac.Input.len = 0
        · simp [expectedBinding, hIn]
        · have := hnn hIn
          simp [expectedBinding, hIn, Option.isSome_iff_ne_none.1 this]
      · intro hnn
        by_cases hOut : ac.Output.len = 0
        · simp [expectedBinding, hOut]
        · have := hnn hOut
          simp [expectedBinding, hOut, Option.isSome_iff_ne_none.1 this]
      · intro hIf
        simp [expectedBinding, hIf]
      · intro hIf
        simp [expectedBinding, hIf]
      · intro hIn
        simp [expectedBinding, hIn]
      · intro hIn
        simp [expectedBinding, hIn]
      · intro hOut
        simp [expectedBinding, hOut]
      · intro hOut
        simp [expectedBinding, hOut]
  · intro pre ack post e hcfg hpre hbad
    have hk : pre.length < acts.length := by
      rw [← hlen, hcfg]
      simp
    have hpre0 : ∀ j, j < pre.length →
        ∃ ac, config.Actions[0 + j]? = some ac ∧ compileError mf ef ac = none := by
      intro j hj
      refine ⟨pre[j], ?_, hpre _ (List.getElem_mem _)⟩
      rw [Nat.zero_add, hcfg, List.getElem?_append_left hj, List.getElem?_eq_getElem hj]
    have hack : config.Actions[0 + pre.length]? = some ack := by
      rw [Nat.zero_add, hcfg, List.getElem?_append_right (Nat.le_refl _), Nat.sub_self]
      exact List.getElem?_cons_zero
    obtain ⟨tr, hbs, hev⟩ :=
      buildActs_error config mf ef pre.length acts 0 ack e hk hpre0 hack hbad
    refine ⟨⟨⟨none, some e, tr⟩, ?_, rfl, rfl, ?_⟩, compileError_some mf ef ack e hbad⟩
    · simp only [NewHandler, hbs]
    · intro ev hmem
      have := hev ev hmem
      omega

/-- Counterexample to C20 as stated: the expression factory returns a nil
expression with a nil error for the guard string of the only action, so that no
compilation fails; NewHandler returns without error a handler whose binding
holds the action handle and a nil guard, although the guard string is not
empty. -/
theorem newHandler_nil_guard_for_nonempty_string :
    oneGuardConfig.Actions.map (fun ac => ac.If) = ["$.a == 1"]
      ∧ (nilExprFactory.NewExpr "$.a == 1").2 = none
      ∧ (NewHandler oneGuardConfig [some (plainAction 0)] sampleMapperFactory nilExprFactory
          echoRunner).map
          (fun r => (r.err, r.handler.map
            (fun h => h.acts.map (fun b => (b.act, b.condition.isNone)))))
          = some (none, some [(some (plainAction 0), true)]) := by
  decide

/-- Witness of C20 (amended): three actions whose guards and mappings all
compile give three bindings, the first with a guard and an input mapper and no
output mapper, the third with no guard; when the guard of the second action does
not compile, the error of the factory is returned and nothing is compiled for
the third action. -/
theorem newHandler_bindings_witness :
    (∃ r h b0 b2, NewHandler threeActionConfig
          [some (plainAction 0), some (plainAction 1), some (plainAction 2)]
          sampleMapperFactory (sampleExprFactory "none") echoRunner = some r
        ∧ r.err = none ∧ r.handler = some h ∧ h.acts.length = 3
        ∧ h.acts[0]? = some b0 ∧ b0.act = some (plainAction 0)
        ∧ b0.condition.isNone = false ∧ b0.actionInputMapper.isNone = false
        ∧ b0.actionOutputMapper.isNone = true
        ∧ h.acts[2]? = some b2 ∧ b2.act = some (plainAction 2)
        ∧ b2.condition.isNone = true)
      ∧ (∃ r, NewHandler threeActionConfig
          [some (plainAction 0), some (plainAction 1), some (plainAction 2)]
          sampleMapperFactory (sampleExprFactory "$.b == 2") echoRunner = some r
        ∧ r.handler.isNone = true ∧ r.err = some ⟨"unable to compile $.b == 2"⟩
        ∧ ∀ ev ∈ r.trace, ev.index ≤ 1) := by
  constructor
  · obtain ⟨r, h, h1, h2, h3, _, h5, hb⟩ :=
      (newHandler_bindings threeActionConfig
        [some (plainAction 0), some (plainAction 1), some (plainAction 2)]
        sampleMapperFactory (sampleExprFactory "none") echoRunner rfl).1 (by decide)
    obtain ⟨ac0, b0, hac0, hb0, hact0, _, _, _, _, _, hc0, _, hi0, ho0, _⟩ :=
      hb 0 (some (plainAction 0)) rfl
    obtain ⟨ac2, b2, hac2, hb2, hact2, _, _, _, _, hc2, _⟩ :=
      hb 2 (some (plainAction 2)) rfl
    have e0 : ac0 = ⟨"$.a == 1", some [("x", .str "=$.a")], none⟩ :=
      (Option.some.inj hac0).symm
    have e2 : ac2 = ⟨"", none, none⟩ := (Option.some.inj hac2).symm
    subst e0
    subst e2
    refine ⟨r, h, b0, b2, h1, h2, h3, h5, hb0, hact0, ?_, ?_, ho0 rfl, hb2, hact2, hc2 rfl⟩
    · rw [hc0 (by decide)]
      rfl
    · rw [hi0 (by decide)]
      rfl
  · exact ((newHandler_bindings threeActionConfig
      [some (plainAction 0), some (plainAction 1), some (plainAction 2)]
      sampleMapperFactory (sampleExprFactory "$.b == 2") echoRunner rfl).2
      [⟨"$.a == 1", some [("x", .str "=$.a")], none⟩] ⟨"$.b == 2", none, none⟩
      [⟨"", none, none⟩] ⟨"unable to compile $.b == 2"⟩ rfl (by decide) (by decide)).1

end trigger
